import Mathlib

/-!
Shallow embedding of the environment-catalogue core of `ducktools-env`
(`src/ducktools/env/catalogue.py` together with the parts of
`environment_specs.py` and `config.py` it uses).

Modelling conventions:
* ISO-8601 timestamp strings (`created_on`, `last_used`) are modelled as `Nat`
  instants; the source only ever compares same-format ISO strings, whose
  lexicographic order agrees with time order, and subtracts parsed datetimes.
* The Python `dict[str, TemporaryEnv]` is modelled as an insertion-ordered
  association list; value update keeps the position, fresh-key insertion
  appends, deletion removes the entry (CPython dict semantics).
* Filesystem / subprocess effects are recorded in an explicit `Trace`
  (number of `save()` calls, directories passed to `shutil.rmtree`) and the
  external world (interpreter enumeration, subprocess outcomes) is a
  `BuildWorld` parameter.
* Version and specifier semantics of the external `packaging` library
  (not part of this repository) are modelled from the spec (§4.2): PEP 440
  versions with epoch, release tuple, pre/post/dev components and a local
  label; comparison total and lexicographic over
  (epoch, release tuple, pre, post, dev); specifier sets as conjunctions
  of operator/version pairs, with pre-release versions matching only when
  a clause of the set explicitly names a pre-release.
-/

/-- One segment of a PEP 440 local version label (as in `2.0.1+cu118`):
an all-digit segment is numeric, any other segment is a lowercase string
(modelled from the spec §4.2, PEP 440 semantics of the external
`packaging.version.Version`). -/
inductive LocalSeg
  | num (n : Nat)
  | str (s : List Char)
deriving DecidableEq, Repr

/-- Modelled from the spec §4.2: a PEP 440 version (the external
`packaging.version.Version`, which is not part of this repository) —
epoch, release tuple, pre-release component (normalised phase `a`/`b`/`rc`
as rank `0`/`1`/`2`, plus its number), post-release and dev numbers, and
the local label. -/
structure PyVersion where
  release : List Nat
  epoch : Nat := 0
  pre : Option (Nat × Nat) := none
  post : Option Nat := none
  dev : Option Nat := none
  localSeg : List LocalSeg := []
deriving DecidableEq, Repr

/-- Zero-padded lexicographic comparison of release tuples
(PEP 440: `1.0` equals `1.0.0`). -/
def verCmp : List Nat → List Nat → Ordering
  | [], bs => if bs.all (fun b => b == 0) then Ordering.eq else Ordering.lt
  | a :: as, [] => if (a :: as).all (fun x => x == 0) then Ordering.eq else Ordering.gt
  | a :: as, b :: bs =>
    if a < b then Ordering.lt else if b < a then Ordering.gt else verCmp as bs

def cmpN (a b : Nat) : Ordering :=
  if a < b then Ordering.lt else if b < a then Ordering.gt else Ordering.eq

/-- Sort key of the pre-release component (spec §4.2, PEP 440 ordering):
a pre-release sorts before its final version, and a dev-only release
(no pre, no post, a dev number) before any pre-release of the same
release tuple. -/
def preKey (v : PyVersion) : Nat × Nat × Nat :=
  match v.pre with
  | some (l, n) => (1, l, n)
  | none => if v.post.isNone && v.dev.isSome then (0, 0, 0) else (2, 0, 0)

/-- Sort key of the post-release component: absence sorts first. -/
def postKey (v : PyVersion) : Nat × Nat :=
  match v.post with
  | some n => (1, n)
  | none => (0, 0)

/-- Sort key of the dev component: absence sorts last. -/
def devKey (v : PyVersion) : Nat × Nat :=
  match v.dev with
  | some n => (0, n)
  | none => (1, 0)

/-- Modelled from the spec §4.2: total version comparison, lexicographic
over (epoch, release tuple, pre, post, dev); the local label is not part
of the stated ordering. -/
def pvCmp (a b : PyVersion) : Ordering :=
  (cmpN a.epoch b.epoch).then ((verCmp a.release b.release).then
    ((cmpN (preKey a).1 (preKey b).1).then ((cmpN (preKey a).2.1 (preKey b).2.1).then
      ((cmpN (preKey a).2.2 (preKey b).2.2).then ((cmpN (postKey a).1 (postKey b).1).then
        ((cmpN (postKey a).2 (postKey b).2).then ((cmpN (devKey a).1 (devKey b).1).then
          (cmpN (devKey a).2 (devKey b).2))))))))

def PyVersion.verLt (a b : PyVersion) : Bool := pvCmp a b == Ordering.lt

def PyVersion.verEq (a b : PyVersion) : Bool := pvCmp a b == Ordering.eq

def PyVersion.verLe (a b : PyVersion) : Bool := a.verLt b || a.verEq b

/-- `Version.is_prerelease`: the version carries a pre or dev component. -/
def PyVersion.isPrerelease (v : PyVersion) : Bool := v.pre.isSome || v.dev.isSome

/-- Modelled from the spec §4.2: one comparison operator of a PEP 440
specifier (the subset exercised by the catalogue code). -/
inductive SpecOp
  | opEq | opNe | opGe | opLe | opGt | opLt
deriving DecidableEq, Repr

/-- Modelled from the spec §4.2: a single version specifier clause such as
`>=3.11`. -/
structure VerSpecifier where
  op : SpecOp
  version : PyVersion
deriving DecidableEq, Repr

def VerSpecifier.containsVer (s : VerSpecifier) (v : PyVersion) : Bool :=
  match s.op with
  | SpecOp.opEq => v.verEq s.version
  | SpecOp.opNe => !(v.verEq s.version)
  | SpecOp.opGe => s.version.verLe v
  | SpecOp.opLe => v.verLe s.version
  | SpecOp.opGt => s.version.verLt v
  | SpecOp.opLt => v.verLt s.version

/-- Modelled from the spec §4.2: `version ∈ SpecifierSet` — every clause
must accept the version, and a pre-release version matches only when the
set explicitly includes pre-releases (some clause names a pre-release
version). -/
def specSetContains (ss : List VerSpecifier) (v : PyVersion) : Bool :=
  if v.isPrerelease && !(ss.any (fun s => s.version.isPrerelease)) then false
  else ss.all (fun s => s.containsVer v)

/-- Modelled from the spec §4.2: `packaging.requirements.Requirement`
restricted to a distribution name and a specifier set. -/
structure Requirement where
  name : String
  specifier : List VerSpecifier
deriving DecidableEq, Repr

/-- `EnvironmentDetails` from `environment_specs.py`, with the lazily parsed
`requires_python_spec` / `dependencies_spec` properties materialised:
`requires_python = none` models the falsy (`None` or empty) string, and
`spec_errors` models the result of `details.errors()` (parse validation of
the external `packaging` library). -/
structure EnvironmentDetails where
  requires_python : Option (List VerSpecifier)
  dependencies : List String
  dependencies_spec : List Requirement
  spec_errors : List String
deriving DecidableEq, Repr

/-- `EnvironmentSpec` from `environment_specs.py`: the SHA3-256 hash of the
raw spec text plus the parsed details. -/
structure EnvironmentSpec where
  spec_hash : String
  details : EnvironmentDetails
deriving DecidableEq, Repr

/-- `TemporaryEnv` from `catalogue.py`: one cached virtual environment.
`python_version` is stored parsed (the source stores the dotted string and
parses it in `find_sufficient_env`).  The name `env_<N>` is modelled by its
numeric suffix `N`: the rendering `n ↦ "env_" ++ repr n` is injective, so
name equality coincides with suffix equality. -/
structure TemporaryEnv where
  name : Nat
  path : String
  python_version : PyVersion
  parent_python : String
  created_on : Nat
  last_used : Nat
  spec_hashes : List String
  installed_modules : List String
deriving DecidableEq, Repr

/-- `TempCatalogue` from `catalogue.py`: path of the JSON file, the
insertion-ordered map of environments and the monotonic name counter. -/
structure TempCatalogue where
  path : String
  environments : List (Nat × TemporaryEnv)
  env_counter : Nat
deriving DecidableEq, Repr

/-- Effect trace of one catalogue operation: how many times `save()` ran and
which directories were handed to `shutil.rmtree`. -/
structure Trace where
  saves : Nat := 0
  rmtrees : List String := []
deriving DecidableEq, Repr

def Trace.comb (a b : Trace) : Trace :=
  { saves := a.saves + b.saves, rmtrees := a.rmtrees ++ b.rmtrees }

def Trace.addSave (a : Trace) : Trace := { a with saves := a.saves + 1 }

/-- `str.split(sep)` for a one-character separator, at the character level
(the builtin `String.splitOn` does not reduce inside the kernel). -/
def splitOnChar (sep : Char) : List Char → List (List Char)
  | [] => [[]]
  | c :: cs =>
    let r := splitOnChar sep cs
    if c == sep then [] :: r
    else
      match r with
      | [] => [[c]]
      | g :: gs => (c :: g) :: gs

/-- `str.split("==")`: left-to-right split on the two-character separator. -/
def splitOnDblEq : List Char → List (List Char)
  | [] => [[]]
  | '=' :: '=' :: cs => [] :: splitOnDblEq cs
  | c :: cs =>
    match splitOnDblEq cs with
    | [] => [[c]]
    | g :: gs => (c :: g) :: gs

/-- `os.path.dirname`, for `BaseCatalogue.catalogue_folder`. -/
def dirname (p : String) : String :=
  let parts := splitOnChar '/' p.data
  if parts.length ≤ 1 then "" else String.mk (List.intercalate ['/'] parts.dropLast)

def TempCatalogue.catalogue_folder (c : TempCatalogue) : String := dirname c.path

/-- `TempCatalogue.oldest_cache`: name of the environment with the strictly
smallest `last_used` (the first one wins ties), or `none` when empty. -/
def TempCatalogue.oldest_cache (c : TempCatalogue) : Option Nat :=
  let old := c.environments.foldl
    (fun acc kv =>
      match acc with
      | none => some kv.2
      | some oc => if kv.2.last_used < oc.last_used then some kv.2 else some oc)
    none
  old.map (fun e => e.name)

/-- Errors raised by the catalogue operations (exception classes from
`exceptions.py` plus the builtin exceptions the code can raise). -/
inductive EnvError
  | invalidSpec        -- InvalidEnvironmentSpec
  | notFoundErr        -- FileNotFoundError from delete_env
  | pythonNotFound     -- PythonVersionNotFound
  | fileExists         -- FileExistsError on an already-existing cache path
  | venvBuild          -- VenvBuildError (venv creation subprocess failed)
  | installFail        -- VenvBuildError (pip install subprocess failed)
  | moduleParse        -- ValueError / InvalidVersion in find_sufficient_env
deriving DecidableEq, Repr

/-- `BaseCatalogue.delete_env`: look the name up; if present, `rmtree` its
directory, drop the entry and `save()`; otherwise raise `FileNotFoundError`. -/
def TempCatalogue.delete_env (c : TempCatalogue) (envname : Nat) :
    Except EnvError (TempCatalogue × Trace) :=
  match c.environments.find? (fun kv => kv.1 == envname) with
  | some kv =>
    Except.ok
      ({ c with environments := c.environments.eraseP (fun p => p.1 == envname) },
        { saves := 1, rmtrees := [kv.2.path] })
  | none => Except.error EnvError.notFoundErr

/-- The loop body of `expire_caches`: iterate over a copy of the original
items, calling `delete_env` on every environment older than `lifetime`
(a raise from `delete_env` propagates). -/
def expireFold (lifetime now : Nat) :
    TempCatalogue → Trace → List (Nat × TemporaryEnv) → Except EnvError (TempCatalogue × Trace)
  | c, t, [] => Except.ok (c, t)
  | c, t, kv :: rest =>
    if lifetime < now - kv.2.created_on then
      match c.delete_env kv.1 with
      | Except.error e => Except.error e
      | Except.ok (c', t') => expireFold lifetime now c' (t.comb t') rest
    else expireFold lifetime now c t rest

/-- `TempCatalogue.expire_caches`: when `lifetime` is truthy (a nonzero
timedelta), delete every environment with `now - created_on > lifetime`
(each deletion saving once, via `delete_env`); always `save()` once at the
end.  A zero `lifetime` is falsy in Python, so nothing is deleted. -/
def TempCatalogue.expire_caches (c : TempCatalogue) (lifetime : Nat) (now : Nat) :
    Except EnvError (TempCatalogue × Trace) :=
  if lifetime == 0 then
    Except.ok (c, { saves := 1 })
  else
    match expireFold lifetime now c {} c.environments with
    | Except.error e => Except.error e
    | Except.ok (c', t) => Except.ok (c', t.addSave)

/-! ### Persistence (`BaseCatalogue.save` / `BaseCatalogue.load`) -/

/-- One filesystem operation performed by `save()`. -/
inductive FsOp
  | makedirs (dir : String)
  | openTruncate (file : String)   -- `open(path, "w")` truncates on open
  | writeContent (file : String)   -- `json.dump` writes the document
  | renameFile (src dst : String)
deriving DecidableEq, Repr

/-- `BaseCatalogue.save`, as the sequence of filesystem operations it
performs: `os.makedirs(catalogue_folder, exist_ok=True)`, then
`open(self.path, "w")` (truncating the existing file), then `json.dump`
into that handle.  There is no temporary file and no rename. -/
def TempCatalogue.save_fsops (c : TempCatalogue) : List FsOp :=
  [FsOp.makedirs c.catalogue_folder, FsOp.openTruncate c.path, FsOp.writeContent c.path]

/-- Which file an operation touches. -/
def FsOp.touches (op : FsOp) (file : String) : Bool :=
  match op with
  | FsOp.makedirs d => d == file
  | FsOp.openTruncate f => f == file
  | FsOp.writeContent f => f == file
  | FsOp.renameFile s d => s == file || d == file

def FsOp.isRename (op : FsOp) : Bool :=
  match op with
  | FsOp.renameFile _ _ => true
  | _ => false

/-- The stored `catalogue.json` document: the `env_counter` field and the
environment objects in persistence order (unknown top-level keys are
filtered out by `load` and do not appear in the model). -/
structure StoredDoc where
  env_counter : Nat
  environments : List (Nat × TemporaryEnv)
deriving DecidableEq, Repr

/-- `BaseCatalogue.load`: a missing or corrupt file (`doc = none`) yields an
empty catalogue at the path; otherwise every stored environment is restored
verbatim.  The filesystem predicate is a parameter only so that claims about
pruning can be stated: the source's `load` never consults it. -/
def TempCatalogue.load (doc : Option StoredDoc) (path : String)
    (fs_exists : String → Bool) : TempCatalogue :=
  match doc with
  | none => { path := path, environments := [], env_counter := 0 }
  | some d => { path := path, environments := d.environments, env_counter := d.env_counter }

/-! ### Lookup (`find_env_hash` / `find_sufficient_env` / `find_env`) -/

/-- CPython `dict` assignment on an insertion-ordered association list:
updating an existing key keeps its position, a fresh key is appended. -/
def dictInsert {κ α : Type} [BEq κ] (l : List (κ × α)) (k : κ) (v : α) :
    List (κ × α) :=
  if l.any (fun p => p.1 == k) then
    l.map (fun p => if p.1 == k then (k, v) else p)
  else l ++ [(k, v)]

/-- The loop body of `find_env_hash` over the environment list: first
environment whose `spec_hashes` contains the hash gets `last_used := now`
in place and is returned. -/
def hashScan (h : String) (now : Nat) :
    List (Nat × TemporaryEnv) → Option (List (Nat × TemporaryEnv) × TemporaryEnv)
  | [] => none
  | (k, env) :: rest =>
    if env.spec_hashes.contains h then
      let env' := { env with last_used := now }
      some ((k, env') :: rest, env')
    else
      match hashScan h now rest with
      | some (l, e) => some ((k, env) :: l, e)
      | none => none

/-- `TempCatalogue.find_env_hash`: exact-phase lookup; on a hit the
environment's `last_used` is updated and `save()` runs once. -/
def TempCatalogue.find_env_hash (c : TempCatalogue) (spec : EnvironmentSpec) (now : Nat) :
    TempCatalogue × Trace × Option TemporaryEnv :=
  match hashScan spec.spec_hash now c.environments with
  | some (l, e) => ({ c with environments := l }, { saves := 1 }, some e)
  | none => (c, {}, none)

/-- The whitespace class the PEP 440 version regex strips around a version
(Python's `\s`). -/
def isPySpace (c : Char) : Bool :=
  c == ' ' || c == '\t' || c == '\n' || c == '\r' || c == '\x0b' || c == '\x0c'

/-- ASCII lowercasing (the version regex is case-insensitive). -/
def lowerC (c : Char) : Char :=
  if 65 ≤ c.toNat && c.toNat ≤ 90 then Char.ofNat (c.toNat + 32) else c

def stripSpace (cs : List Char) : List Char :=
  ((cs.dropWhile isPySpace).reverse.dropWhile isPySpace).reverse

/-- A lexical token of the PEP 440 version grammar: maximal digit and
letter runs, one of the separators `-`/`_`/`.`, the epoch marker `!`, the
local-label marker `+`, and a rejection marker for any other character. -/
inductive VTok
  | numTok (ds : List Char)
  | wordTok (ws : List Char)
  | sepTok (c : Char)
  | bangTok
  | plusTok
  | badTok
deriving DecidableEq, Repr

def isSepChar (c : Char) : Bool := c == '-' || c == '_' || c == '.'

def isLowerAlpha (c : Char) : Bool := 97 ≤ c.toNat && c.toNat ≤ 122

/-- Tokenise a lowercased version string. -/
def vlex : List Char → List VTok
  | [] => []
  | c :: cs =>
    let ts := vlex cs
    if c.isDigit then
      match ts with
      | VTok.numTok ds :: ts₁ => VTok.numTok (c :: ds) :: ts₁
      | _ => VTok.numTok [c] :: ts
    else if isLowerAlpha c then
      match ts with
      | VTok.wordTok ws :: ts₁ => VTok.wordTok (c :: ws) :: ts₁
      | _ => VTok.wordTok [c] :: ts
    else if isSepChar c then VTok.sepTok c :: ts
    else if c == '!' then VTok.bangTok :: ts
    else if c == '+' then VTok.plusTok :: ts
    else VTok.badTok :: ts

/-- Decimal value of a digit run. -/
def natOfDigits (ds : List Char) : Nat :=
  ds.foldl (fun a c => a * 10 + (c.toNat - 48)) 0

/-- The `(.N)*` tail of the release tuple: `.`-separated digit runs. -/
def parseRelToks : List VTok → List Nat × List VTok
  | VTok.sepTok '.' :: VTok.numTok ds :: ts =>
    let p := parseRelToks ts
    (natOfDigits ds :: p.1, p.2)
  | ts => ([], ts)

/-- Normalised pre-release phase (PEP 440 spellings): `a`/`alpha` ↦ 0,
`b`/`beta` ↦ 1, `c`/`pre`/`preview`/`rc` ↦ 2. -/
def preRank (w : List Char) : Option Nat :=
  let s := String.mk w
  if s == "a" || s == "alpha" then some 0
  else if s == "b" || s == "beta" then some 1
  else if s == "c" || s == "rc" || s == "pre" || s == "preview" then some 2
  else none

/-- `[-_.]?[0-9]*` after a pre/post/dev word: optional separator and
optional number, a missing number defaulting to 0. -/
def parseOptNum : List VTok → Nat × List VTok
  | VTok.sepTok _ :: VTok.numTok ds :: ts => (natOfDigits ds, ts)
  | VTok.sepTok _ :: ts => (0, ts)
  | VTok.numTok ds :: ts => (natOfDigits ds, ts)
  | ts => (0, ts)

/-- The optional pre-release clause: optional separator, phase word,
optional separator and number. -/
def parsePre (ts : List VTok) : Option (Nat × Nat) × List VTok :=
  match ts with
  | VTok.sepTok _ :: VTok.wordTok w :: ts₁ =>
    match preRank w with
    | some r => let p := parseOptNum ts₁; (some (r, p.1), p.2)
    | none => (none, ts)
  | VTok.wordTok w :: ts₁ =>
    match preRank w with
    | some r => let p := parseOptNum ts₁; (some (r, p.1), p.2)
    | none => (none, ts)
  | _ => (none, ts)

def isPostWord (w : List Char) : Bool :=
  let s := String.mk w
  s == "post" || s == "rev" || s == "r"

/-- The optional post-release clause: either a dash directly followed by a
number, or an optionally separated `post`/`rev`/`r` word with an optional
number. -/
def parsePost (ts : List VTok) : Option Nat × List VTok :=
  match ts with
  | VTok.sepTok '-' :: VTok.numTok ds :: ts₁ => (some (natOfDigits ds), ts₁)
  | VTok.sepTok _ :: VTok.wordTok w :: ts₁ =>
    if isPostWord w then let p := parseOptNum ts₁; (some p.1, p.2) else (none, ts)
  | VTok.wordTok w :: ts₁ =>
    if isPostWord w then let p := parseOptNum ts₁; (some p.1, p.2) else (none, ts)
  | _ => (none, ts)

/-- The optional dev clause: an optionally separated `dev` word with an
optional number. -/
def parseDev (ts : List VTok) : Option Nat × List VTok :=
  match ts with
  | VTok.sepTok _ :: VTok.wordTok w :: ts₁ =>
    if String.mk w == "dev" then let p := parseOptNum ts₁; (some p.1, p.2) else (none, ts)
  | VTok.wordTok w :: ts₁ =>
    if String.mk w == "dev" then let p := parseOptNum ts₁; (some p.1, p.2) else (none, ts)
  | _ => (none, ts)

/-- Accumulate the segments of a local version label: adjacent letter and
digit runs merge into one segment, single separators divide segments, and
a segment consisting of exactly one digit run is numeric.  `cur` is the
pending segment and `pnum` whether it is one pure digit run. -/
def locAcc : List Char → Bool → List VTok → Option (List LocalSeg)
  | cur, pnum, [] =>
    if cur.isEmpty then none
    else some [if pnum then LocalSeg.num (natOfDigits cur) else LocalSeg.str cur]
  | cur, _, VTok.numTok ds :: ts =>
    if cur.isEmpty then locAcc ds true ts else locAcc (cur ++ ds) false ts
  | cur, _, VTok.wordTok ws :: ts => locAcc (cur ++ ws) false ts
  | cur, pnum, VTok.sepTok _ :: ts =>
    if cur.isEmpty then none
    else
      match locAcc [] false ts with
      | some segs =>
        some ((if pnum then LocalSeg.num (natOfDigits cur) else LocalSeg.str cur) :: segs)
      | none => none
  | _, _, _ => none

/-- `packaging.version.Version(s)` (external, modelled from the spec §4.2:
PEP 440 / PEP 508 semantics): case-insensitive, surrounding whitespace and
a leading `v` allowed, then `[N!]N(.N)*` release, optional pre-release
(`a`/`b`/`rc` and their alternate spellings), post-release (`.postN` or
`-N`), dev (`.devN`) and local (`+label`) clauses; `none` models the
`InvalidVersion` error. -/
def parseVersion (s : String) : Option PyVersion :=
  let cs := stripSpace (s.data.map lowerC)
  let cs₁ := match cs with
    | 'v' :: r => r
    | r => r
  let ts := vlex cs₁
  let ep : Nat × List VTok := match ts with
    | VTok.numTok ds :: VTok.bangTok :: r => (natOfDigits ds, r)
    | r => (0, r)
  match ep.2 with
  | VTok.numTok ds :: ts₁ =>
    let rel := parseRelToks ts₁
    let pr := parsePre rel.2
    let po := parsePost pr.2
    let dv := parseDev po.2
    match dv.2 with
    | [] =>
      some { release := natOfDigits ds :: rel.1, epoch := ep.1,
             pre := pr.1, post := po.1, dev := dv.1 }
    | VTok.plusTok :: lts =>
      match locAcc [] false lts with
      | some segs =>
        some { release := natOfDigits ds :: rel.1, epoch := ep.1,
               pre := pr.1, post := po.1, dev := dv.1, localSeg := segs }
      | none => none
    | _ => none
  | _ => none

/-- `name, version = mod.split("==")` followed by `Version(version)`:
`none` models the `ValueError` (wrong number of parts) or `InvalidVersion`
the source would raise. -/
def parseModule (mod : String) : Option (String × PyVersion) :=
  match splitOnDblEq mod.data with
  | [name, verStr] => (parseVersion (String.mk verStr)).map (fun v => (String.mk name, v))
  | _ => none

/-- The `cache_spec` dict built by `find_sufficient_env`'s parse loop, in
module order with later entries overriding; `none` models the first
unhandled exception. -/
def buildCacheSpec (mods : List String) : Option (List (String × PyVersion)) :=
  mods.foldlM (fun acc m => (parseModule m).map (fun nv => dictInsert acc nv.1 nv.2)) []

def dictGetVer (l : List (String × PyVersion)) (k : String) : Option PyVersion :=
  (l.find? (fun p => p.1 == k)).map (fun p => p.2)

/-- Step (a) of the sufficient phase: skip the environment when the spec has
a python requirement the environment's interpreter version does not satisfy. -/
def pythonSkip (spec : EnvironmentSpec) (env : TemporaryEnv) : Bool :=
  match spec.details.requires_python with
  | none => false
  | some ss => !(specSetContains ss env.python_version)

/-- The dependency for/else loop of `find_sufficient_env`: every requirement
must find its name installed at a version inside its specifier. -/
def depsSatisfied (cacheSpec : List (String × PyVersion)) (reqs : List Requirement) : Bool :=
  reqs.all (fun req =>
    match dictGetVer cacheSpec req.name with
    | some v => specSetContains req.specifier v
    | none => false)

/-- The loop body of `find_sufficient_env`: python-version skip, module
parse (which can raise), dependency check; on a match the spec hash is
appended unconditionally and `last_used` updated in place. -/
def suffScan (spec : EnvironmentSpec) (now : Nat) :
    List (Nat × TemporaryEnv) →
    Except EnvError (Option (List (Nat × TemporaryEnv) × TemporaryEnv))
  | [] => Except.ok none
  | (k, env) :: rest =>
    if pythonSkip spec env then
      match suffScan spec now rest with
      | Except.error e => Except.error e
      | Except.ok none => Except.ok none
      | Except.ok (some (l, e)) => Except.ok (some ((k, env) :: l, e))
    else
      match buildCacheSpec env.installed_modules with
      | none => Except.error EnvError.moduleParse
      | some cacheSpec =>
        if depsSatisfied cacheSpec spec.details.dependencies_spec then
          let env' := { env with last_used := now,
                                 spec_hashes := env.spec_hashes ++ [spec.spec_hash] }
          Except.ok (some ((k, env') :: rest, env'))
        else
          match suffScan spec now rest with
          | Except.error e => Except.error e
          | Except.ok none => Except.ok none
          | Except.ok (some (l, e)) => Except.ok (some ((k, env) :: l, e))

/-- `TempCatalogue.find_sufficient_env`: sufficient-phase lookup; a match
mutates the matched environment and `save()`s once; a malformed
`installed_modules` entry of an examined environment raises. -/
def TempCatalogue.find_sufficient_env (c : TempCatalogue) (spec : EnvironmentSpec)
    (now : Nat) : Except EnvError (TempCatalogue × Trace × Option TemporaryEnv) :=
  match suffScan spec now c.environments with
  | Except.error e => Except.error e
  | Except.ok none => Except.ok (c, {}, none)
  | Except.ok (some (l, e)) =>
    Except.ok ({ c with environments := l }, { saves := 1 }, some e)

/-- `TempCatalogue.find_env`: exact phase first, then the sufficient phase. -/
def TempCatalogue.find_env (c : TempCatalogue) (spec : EnvironmentSpec) (now : Nat) :
    Except EnvError (TempCatalogue × Trace × Option TemporaryEnv) :=
  match c.find_env_hash spec now with
  | (c₁, t₁, some e) => Except.ok (c₁, t₁, some e)
  | (c₁, t₁, none) =>
    match c₁.find_sufficient_env spec now with
    | Except.error e => Except.error e
    | Except.ok (c₂, t₂, r) => Except.ok (c₂, t₁.comb t₂, r)

/-! ### Creation (`create_env` / `find_or_create_env`) -/

/-- One candidate from `ducktools.pythonfinder.get_python_installs()`:
executable path, interpreter version and the pip version reported by
`get_pip_version()` (`none` models a falsy result: no pip). -/
structure PyInstall where
  executable : String
  version : PyVersion
  pip_version : Option PyVersion
deriving DecidableEq, Repr

/-- `MINIMUM_PIP = "22.3"`. -/
def minimumPip : PyVersion := { release := [22, 3] }

/-- The interpreter-selection loop of `create_env`: first install whose pip
is present and at least `MINIMUM_PIP` and whose version satisfies the
spec's python requirement (any such install when the requirement is unset);
installs failing either test are skipped with a diagnostic log. -/
def select_python (spec : EnvironmentSpec) : List PyInstall → Option PyInstall
  | [] => none
  | install :: rest =>
    match install.pip_version with
    | none => select_python spec rest
    | some pipVer =>
      if pipVer.verLt minimumPip then select_python spec rest
      else
        match spec.details.requires_python with
        | none => some install
        | some ss =>
          if specSetContains ss install.version then some install
          else select_python spec rest

/-- The external world `create_env` interacts with: the interpreter
enumeration and the outcomes of the `venv` / `pip install` / `pip freeze`
subprocesses, plus the `os.path.exists` check on the target path. -/
structure BuildWorld where
  installs : List PyInstall
  path_exists : String → Bool
  venv_ok : Bool
  pip_install_ok : Bool
  freeze_lines : List String

/-- Result of `create_env` / `find_or_create_env`: the catalogue state after
the call (mutations before an exception persist), the effect trace, and the
returned environment or the exception raised. -/
structure CreateResult where
  cat : TempCatalogue
  trace : Trace
  result : Except EnvError TemporaryEnv
deriving Repr

instance {ε α : Type} [DecidableEq ε] [DecidableEq α] : DecidableEq (Except ε α) :=
  fun a b =>
    match a, b with
    | Except.ok x, Except.ok y =>
      if h : x = y then Decidable.isTrue (by rw [h]) else Decidable.isFalse (by simp [h])
    | Except.error x, Except.error y =>
      if h : x = y then Decidable.isTrue (by rw [h]) else Decidable.isFalse (by simp [h])
    | Except.ok _, Except.error _ => Decidable.isFalse (by simp)
    | Except.error _, Except.ok _ => Decidable.isFalse (by simp)

/-- One iteration of the eviction `while` loop: `oldest_cache` then
`delete_env` (the source would raise `FileNotFoundError` from `delete_env`
if the oldest name were not a key, and `delete_env(None)` if the catalogue
were empty). -/
def TempCatalogue.evict_step (c : TempCatalogue) : Except EnvError (TempCatalogue × Trace) :=
  match c.oldest_cache with
  | none => Except.error EnvError.notFoundErr
  | some name => c.delete_env name

/-- The eviction `while` loop of `create_env`, by the decreasing measure
`length - maxcount` (every successful `delete_env` removes exactly one
entry, so the loop guard fails exactly when the fuel would).  The `Bool`
is `false` when an exception escaped the loop; the catalogue reached so
far is returned either way. -/
def TempCatalogue.evict_go (fuel : Nat) (c : TempCatalogue) (maxcount : Nat) :
    TempCatalogue × Trace × Bool :=
  match fuel with
  | 0 => (c, {}, true)
  | f + 1 =>
    if maxcount < c.environments.length then
      match c.evict_step with
      | Except.error _ => (c, {}, false)
      | Except.ok (c', t) =>
        let r := TempCatalogue.evict_go f c' maxcount
        (r.1, t.comb r.2.1, r.2.2)
    else (c, {}, true)

/-- `while len(self.environments) > config.cache_maxcount: delete oldest`. -/
def TempCatalogue.evict_loop (c : TempCatalogue) (maxcount : Nat) :
    TempCatalogue × Trace × Bool :=
  TempCatalogue.evict_go (c.environments.length - maxcount) c maxcount

/-- `TempCatalogue.create_env`.  Faithful to the source order: validate the
spec, evict while over `cache_maxcount`, reserve the name `env_<counter>`
and increment the counter, search for an interpreter, check the target path,
run `venv`, install and freeze when there are dependencies, then insert the
new record and `save()`.  Every failure is returned together with the
catalogue state already mutated at that point; no failure path removes the
partially built directory. -/
def TempCatalogue.create_env (c : TempCatalogue) (spec : EnvironmentSpec)
    (cache_maxcount : Nat) (w : BuildWorld) (now : Nat) : CreateResult :=
  if spec.details.spec_errors ≠ [] then
    { cat := c, trace := {}, result := Except.error EnvError.invalidSpec }
  else
    match c.evict_loop cache_maxcount with
    | (c₁, t₁, false) =>
      { cat := c₁, trace := t₁, result := Except.error EnvError.notFoundErr }
    | (c₁, t₁, true) =>
      let new_cachename := c₁.env_counter
      let c₂ := { c₁ with env_counter := c₁.env_counter + 1 }
      let cache_path := c₂.catalogue_folder ++ "/env_" ++ toString new_cachename
      match select_python spec w.installs with
      | none => { cat := c₂, trace := t₁, result := Except.error EnvError.pythonNotFound }
      | some install =>
        if w.path_exists cache_path then
          { cat := c₂, trace := t₁, result := Except.error EnvError.fileExists }
        else if !w.venv_ok then
          { cat := c₂, trace := t₁, result := Except.error EnvError.venvBuild }
        else
          let finish : List String → CreateResult := fun installed_modules =>
            let new_cache : TemporaryEnv :=
              { name := new_cachename, path := cache_path,
                python_version := install.version, parent_python := install.executable,
                created_on := now, last_used := now,
                spec_hashes := [spec.spec_hash], installed_modules := installed_modules }
            { cat := { c₂ with
                environments := dictInsert c₂.environments new_cachename new_cache },
              trace := t₁.addSave, result := Except.ok new_cache }
          if spec.details.dependencies.isEmpty then
            finish []
          else if !w.pip_install_ok then
            { cat := c₂, trace := t₁, result := Except.error EnvError.installFail }
          else
            finish (w.freeze_lines.filter (fun i => !(i == "")))

/-- `TempCatalogue.find_or_create_env`: `find_env`, and `create_env` when
nothing was found. -/
def TempCatalogue.find_or_create_env (c : TempCatalogue) (spec : EnvironmentSpec)
    (cache_maxcount : Nat) (w : BuildWorld) (now : Nat) : CreateResult :=
  match c.find_env spec now with
  | Except.error e => { cat := c, trace := {}, result := Except.error e }
  | Except.ok (c₁, t₁, some env) => { cat := c₁, trace := t₁, result := Except.ok env }
  | Except.ok (c₁, t₁, none) =>
    let r := c₁.create_env spec cache_maxcount w now
    { cat := r.cat, trace := t₁.comb r.trace, result := r.result }

/-- The empty catalogue at a path (what `load` yields for a missing file). -/
def emptyCatalogue (path : String) : TempCatalogue :=
  { path := path, environments := [], env_counter := 0 }

/-- A sequence of `create_env` calls, each with its own spec, world and
clock; `none` as soon as one of them raises. -/
def iterCreate (cache_maxcount : Nat) :
    TempCatalogue → List (EnvironmentSpec × BuildWorld × Nat) → Option TempCatalogue
  | c, [] => some c
  | c, (s, w, t) :: rest =>
    let r := c.create_env s cache_maxcount w t
    match r.result with
    | Except.ok _ => iterCreate cache_maxcount r.cat rest
    | Except.error _ => none

/-! ### Observation definitions used to state the claims -/

/-- What a concurrent reader of the catalogue file can see at one instant. -/
inductive FileView
  | oldDoc | newDoc | truncated
deriving DecidableEq, Repr

/-- Effect of one filesystem operation on the reader-visible content of
`target`: `open(_, "w")` truncates immediately, the dump then fills in the
new document, and a rename over `target` replaces its content atomically. -/
def applyFsOp (target : String) (op : FsOp) (s : FileView) : FileView :=
  match op with
  | FsOp.makedirs _ => s
  | FsOp.openTruncate f => if f == target then FileView.truncated else s
  | FsOp.writeContent f => if f == target then FileView.newDoc else s
  | FsOp.renameFile _ d => if d == target then FileView.newDoc else s

/-- All reader-visible states of `target` over an operation sequence,
starting from the old document. -/
def fileStates (target : String) : List FsOp → FileView → List FileView
  | [], s => [s]
  | op :: rest, s => s :: fileStates target rest (applyFsOp target op s)

/-- Dict well-formedness: every key in the environments map is below the
name counter (hence `env_<counter>` is always fresh).  Holds for every
catalogue the code itself builds. -/
def keysBounded (c : TempCatalogue) : Bool :=
  c.environments.all (fun kv => kv.1 < c.env_counter)

/-- Key uniqueness of the environments map (automatic for a Python dict). -/
def keysNodup (c : TempCatalogue) : Prop :=
  (c.environments.map Prod.fst).Nodup

/-- The set-semantics invariant of the spec: no environment records the same
fingerprint twice. -/
def nodupHashes (c : TempCatalogue) : Prop :=
  ∀ kv ∈ c.environments, kv.2.spec_hashes.Nodup

/-- All `installed_modules` entries of an environment parse as
`name==version` (the precondition of the sufficient phase's parse loop). -/
def wellFormedModules (mods : List String) : Bool :=
  (buildCacheSpec mods).isSome

/-- Specification-level acceptance test of the sufficient phase for one
environment: the python requirement (when set) admits the interpreter and
every declared dependency is installed at an admissible version. -/
def acceptEnv (spec : EnvironmentSpec) (env : TemporaryEnv) : Bool :=
  !pythonSkip spec env &&
    depsSatisfied ((buildCacheSpec env.installed_modules).getD [])
      spec.details.dependencies_spec

/-- The in-place mutation the sufficient phase applies to a matched
environment. -/
def updEnvSuff (spec : EnvironmentSpec) (now : Nat) (env : TemporaryEnv) : TemporaryEnv :=
  { env with last_used := now, spec_hashes := env.spec_hashes ++ [spec.spec_hash] }

/-- The in-place mutation the exact phase applies to a matched environment. -/
def updEnvHash (now : Nat) (env : TemporaryEnv) : TemporaryEnv :=
  { env with last_used := now }

/-- Specification-level usability test of one interpreter candidate: pip is
present, at least `MINIMUM_PIP`, and the interpreter version satisfies the
spec's python requirement (when one is set). -/
def usableFor (spec : EnvironmentSpec) (i : PyInstall) : Bool :=
  match i.pip_version with
  | none => false
  | some pv =>
    !pv.verLt minimumPip &&
      (match spec.details.requires_python with
       | none => true
       | some ss => specSetContains ss i.version)

/-! ### Concrete fixtures for counterexamples and witnesses -/

/-- A valid spec with no python requirement and no dependencies. -/
def mkSpec (h : String) : EnvironmentSpec :=
  { spec_hash := h,
    details := { requires_python := none, dependencies := [],
                 dependencies_spec := [], spec_errors := [] } }

def py312 : PyInstall :=
  { executable := "/usr/bin/python3.12", version := { release := [3, 12] }, pip_version := some { release := [24, 0] } }

def py310 : PyInstall :=
  { executable := "/usr/bin/python3.10", version := { release := [3, 10] }, pip_version := some { release := [24, 0] } }

def py313NoPip : PyInstall :=
  { executable := "/usr/bin/python3.13", version := { release := [3, 13] }, pip_version := none }

/-- A world in which one interpreter is found and every subprocess succeeds. -/
def goodWorld : BuildWorld :=
  { installs := [py312], path_exists := fun _ => false,
    venv_ok := true, pip_install_ok := true, freeze_lines := [] }

def py313 : PyInstall :=
  { executable := "/usr/bin/python3.13", version := { release := [3, 13] }, pip_version := some { release := [24, 0] } }

/-- A world whose only interpreter is 3.13 and whose subprocesses succeed. -/
def world313 : BuildWorld :=
  { installs := [py313], path_exists := fun _ => false,
    venv_ok := true, pip_install_ok := true, freeze_lines := [] }

/-- A world with no interpreters at all. -/
def worldNoPython : BuildWorld :=
  { installs := [], path_exists := fun _ => false,
    venv_ok := true, pip_install_ok := true, freeze_lines := [] }

/-- A world in which `pip install` fails. -/
def worldInstallFails : BuildWorld :=
  { installs := [py312], path_exists := fun _ => false,
    venv_ok := true, pip_install_ok := false, freeze_lines := [] }

/-- `now - created_on > lifetime`: the deletion test of `expire_caches`. -/
def isExpired (lifetime now : Nat) (kv : Nat × TemporaryEnv) : Bool :=
  lifetime < now - kv.2.created_on

/-- A generic environment fixture. -/
def mkEnv (n : Nat) (created used : Nat) (hashes : List String) (mods : List String) :
    TemporaryEnv :=
  { name := n, path := "a/env_" ++ toString n, python_version := { release := [3, 12] },
    parent_python := "/usr/bin/python3.12", created_on := created, last_used := used,
    spec_hashes := hashes, installed_modules := mods }

/-- One-environment catalogue fixture. -/
def oneEnvCat (e : TemporaryEnv) : TempCatalogue :=
  { path := "a/b", environments := [(e.name, e)], env_counter := e.name + 1 }

/-- A spec that requires python >= 3.13 (hash `h2`, no dependencies). -/
def spec313 : EnvironmentSpec :=
  { spec_hash := "h2",
    details := { requires_python := some [⟨SpecOp.opGe, { release := [3, 13] }⟩], dependencies := [],
                 dependencies_spec := [], spec_errors := [] } }

/-- A spec with one dependency `cowsay` (any version), hash `h4`. -/
def specCowsay : EnvironmentSpec :=
  { spec_hash := "h4",
    details := { requires_python := none, dependencies := ["cowsay"],
                 dependencies_spec := [{ name := "cowsay", specifier := [] }],
                 spec_errors := [] } }

/-- A spec that requires `requests>=2.30`, hash `h3`. -/
def specRequests : EnvironmentSpec :=
  { spec_hash := "h3",
    details := { requires_python := none, dependencies := ["requests>=2.30"],
                 dependencies_spec := [⟨"requests", [⟨SpecOp.opGe, { release := [2, 30] }⟩]⟩],
                 spec_errors := [] } }

/-- A stored catalogue document with one environment. -/
def docC6 : StoredDoc :=
  { env_counter := 1, environments := [(0, mkEnv 0 0 0 ["h0"] [])] }

/-- A one-environment catalogue whose environment was created at time 0. -/
def catStale : TempCatalogue := oneEnvCat (mkEnv 0 0 0 ["h0"] [])

/-- A spec that requires python >= 3.11 and nothing else (hash `h9`). -/
def spec311 : EnvironmentSpec :=
  { spec_hash := "h9",
    details := { requires_python := some [⟨SpecOp.opGe, { release := [3, 11] }⟩], dependencies := [],
                 dependencies_spec := [], spec_errors := [] } }

/-! ### Helper lemmas -/

theorem find?_key_append (keep : List (Nat × TemporaryEnv)) (kv : Nat × TemporaryEnv)
    (rest : List (Nat × TemporaryEnv)) (hkeep : ∀ p ∈ keep, p.1 ≠ kv.1) :
    (keep ++ kv :: rest).find? (fun p => p.1 == kv.1) = some kv := by
  induction keep with
  | nil => simp
  | cons a as ih =>
    have ha : (a.1 == kv.1) = false := by
      simpa using hkeep a (List.mem_cons_self a as)
    simp only [List.cons_append, List.find?_cons, ha]
    exact ih (fun p hp => hkeep p (List.mem_cons_of_mem a hp))

theorem eraseP_key_append (keep : List (Nat × TemporaryEnv)) (kv : Nat × TemporaryEnv)
    (rest : List (Nat × TemporaryEnv)) (hkeep : ∀ p ∈ keep, p.1 ≠ kv.1) :
    (keep ++ kv :: rest).eraseP (fun p => p.1 == kv.1) = keep ++ rest := by
  induction keep with
  | nil => simp
  | cons a as ih =>
    have ha : (a.1 == kv.1) = false := by
      simpa using hkeep a (List.mem_cons_self a as)
    simp only [List.cons_append, List.eraseP_cons, ha, cond_false]
    rw [ih (fun p hp => hkeep p (List.mem_cons_of_mem a hp))]

theorem mem_dictInsert {α : Type} {l : List (Nat × α)} {k : Nat} {v : α} {q : Nat × α}
    (h : q ∈ dictInsert l k v) : q ∈ l ∨ q = (k, v) := by
  unfold dictInsert at h
  split at h
  · obtain ⟨p, hp, hq⟩ := List.mem_map.mp h
    by_cases hk : (p.1 == k) = true
    · rw [if_pos hk] at hq
      exact Or.inr hq.symm
    · rw [if_neg hk] at hq
      exact Or.inl (hq ▸ hp)
  · rcases List.mem_append.mp h with h1 | h1
    · exact Or.inl h1
    · exact Or.inr (by simpa using h1)

theorem dictInsert_fresh {α : Type} {l : List (Nat × α)} {k : Nat} {v : α}
    (h : ∀ p ∈ l, p.1 ≠ k) : dictInsert l k v = l ++ [(k, v)] := by
  have hc : (l.any fun p => p.1 == k) = false := by
    rw [List.any_eq_false]
    intro p hp
    simpa using h p hp
  simp [dictInsert, hc]

theorem delete_env_ok_shape {c : TempCatalogue} {n : Nat} {c' : TempCatalogue} {t : Trace}
    (h : c.delete_env n = Except.ok (c', t)) :
    c'.environments.length + 1 = c.environments.length ∧
    c'.env_counter = c.env_counter ∧ c'.path = c.path ∧
    ∀ kv ∈ c'.environments, kv ∈ c.environments := by
  unfold TempCatalogue.delete_env at h
  cases hf : c.environments.find? (fun kv => kv.1 == n) with
  | none =>
    rw [hf] at h
    exact absurd h (by simp)
  | some kv =>
    rw [hf] at h
    simp only [Except.ok.injEq, Prod.mk.injEq] at h
    obtain ⟨hc, ht⟩ := h
    subst hc
    have hmem := List.mem_of_find?_eq_some hf
    have hpa := List.find?_some hf
    refine ⟨?_, rfl, rfl, ?_⟩
    · exact List.length_eraseP_add_one hmem hpa
    · intro q hq
      exact (List.eraseP_sublist _).subset hq

theorem evict_step_shape {c c' : TempCatalogue} {t : Trace}
    (h : c.evict_step = Except.ok (c', t)) :
    c'.environments.length + 1 = c.environments.length ∧
    c'.env_counter = c.env_counter ∧ c'.path = c.path ∧
    ∀ kv ∈ c'.environments, kv ∈ c.environments := by
  unfold TempCatalogue.evict_step at h
  cases ho : c.oldest_cache with
  | none =>
    rw [ho] at h
    exact absurd h (by simp)
  | some name =>
    rw [ho] at h
    exact delete_env_ok_shape h

theorem evict_go_shape (maxcount : Nat) :
    ∀ (fuel : Nat) (c : TempCatalogue), c.environments.length ≤ maxcount + fuel →
    (TempCatalogue.evict_go fuel c maxcount).2.2 = true →
    (TempCatalogue.evict_go fuel c maxcount).1.environments.length
        = min c.environments.length maxcount ∧
    (TempCatalogue.evict_go fuel c maxcount).1.env_counter = c.env_counter ∧
    (TempCatalogue.evict_go fuel c maxcount).1.path = c.path ∧
    ∀ kv ∈ (TempCatalogue.evict_go fuel c maxcount).1.environments,
      kv ∈ c.environments := by
  intro fuel
  induction fuel with
  | zero =>
    intro c hle _
    refine ⟨?_, rfl, rfl, fun kv hkv => hkv⟩
    show c.environments.length = min c.environments.length maxcount
    omega
  | succ f ih =>
    intro c hle hok
    by_cases hgt : maxcount < c.environments.length
    · cases hs : c.evict_step with
      | error e =>
        have hval : TempCatalogue.evict_go (f + 1) c maxcount = (c, {}, false) := by
          conv_lhs => rw [TempCatalogue.evict_go]
          rw [if_pos hgt, hs]
        rw [hval] at hok
        exact absurd hok (by simp)
      | ok ct =>
        obtain ⟨c', t⟩ := ct
        have hval : TempCatalogue.evict_go (f + 1) c maxcount =
            ((TempCatalogue.evict_go f c' maxcount).1,
             t.comb (TempCatalogue.evict_go f c' maxcount).2.1,
             (TempCatalogue.evict_go f c' maxcount).2.2) := by
          conv_lhs => rw [TempCatalogue.evict_go]
          rw [if_pos hgt, hs]
        rw [hval] at hok ⊢
        dsimp only at hok ⊢
        obtain ⟨g1, g2, g3, g4⟩ := evict_step_shape hs
        have hle' : c'.environments.length ≤ maxcount + f := by omega
        obtain ⟨h1, h2, h3, h4⟩ := ih c' hle' hok
        exact ⟨by omega, by rw [h2, g2], by rw [h3, g3],
          fun kv hkv => g4 kv (h4 kv hkv)⟩
    · have hval : TempCatalogue.evict_go (f + 1) c maxcount = (c, {}, true) := by
        unfold TempCatalogue.evict_go
        rw [if_neg hgt]
      rw [hval]
      refine ⟨?_, rfl, rfl, fun kv hkv => hkv⟩
      show c.environments.length = min c.environments.length maxcount
      omega

theorem evict_loop_shape (c : TempCatalogue) (maxcount : Nat)
    (hok : (c.evict_loop maxcount).2.2 = true) :
    (c.evict_loop maxcount).1.environments.length = min c.environments.length maxcount ∧
    (c.evict_loop maxcount).1.env_counter = c.env_counter ∧
    (c.evict_loop maxcount).1.path = c.path ∧
    ∀ kv ∈ (c.evict_loop maxcount).1.environments, kv ∈ c.environments :=
  evict_go_shape maxcount _ c (by omega) hok

theorem evict_loop_noop {c : TempCatalogue} {maxcount : Nat}
    (h : c.environments.length ≤ maxcount) :
    c.evict_loop maxcount = (c, {}, true) := by
  unfold TempCatalogue.evict_loop
  rw [Nat.sub_eq_zero_of_le h]
  rfl

theorem create_env_ok_shape {c : TempCatalogue} {spec : EnvironmentSpec} {maxcount : Nat}
    {w : BuildWorld} {now : Nat} {env : TemporaryEnv}
    (hok : (c.create_env spec maxcount w now).result = Except.ok env) :
    (c.evict_loop maxcount).2.2 = true ∧
    env.name = (c.evict_loop maxcount).1.env_counter ∧
    env.spec_hashes = [spec.spec_hash] ∧
    env.created_on = now ∧ env.last_used = now ∧
    c.create_env spec maxcount w now =
      { cat := { (c.evict_loop maxcount).1 with
          environments := dictInsert (c.evict_loop maxcount).1.environments
            (c.evict_loop maxcount).1.env_counter env,
          env_counter := (c.evict_loop maxcount).1.env_counter + 1 },
        trace := (c.evict_loop maxcount).2.1.addSave,
        result := Except.ok env } := by
  set r := c.create_env spec maxcount w now with hr
  simp only [TempCatalogue.create_env] at hr
  split at hr
  · rw [hr] at hok
    exact absurd hok (by simp)
  · split at hr
    next c₁ t₁ hev =>
      rw [hr] at hok
      exact absurd hok (by simp)
    next c₁ t₁ hev =>
      split at hr
      · rw [hr] at hok
        exact absurd hok (by simp)
      next install hsel =>
        split at hr
        · rw [hr] at hok
          exact absurd hok (by simp)
        · split at hr
          · rw [hr] at hok
            exact absurd hok (by simp)
          · split at hr
            · -- dependencies empty: success with installed_modules = []
              rw [hr] at hok
              simp only [Except.ok.injEq] at hok
              rw [hev, hr, ← hok]
              exact ⟨rfl, rfl, rfl, rfl, rfl, rfl⟩
            · split at hr
              · rw [hr] at hok
                exact absurd hok (by simp)
              · -- dependencies installed: success with freeze output
                rw [hr] at hok
                simp only [Except.ok.injEq] at hok
                rw [hev, hr, ← hok]
                exact ⟨rfl, rfl, rfl, rfl, rfl, rfl⟩

theorem create_env_error_shape {c : TempCatalogue} {spec : EnvironmentSpec} {maxcount : Nat}
    {w : BuildWorld} {now : Nat} {e : EnvError}
    (he : (c.create_env spec maxcount w now).result = Except.error e) :
    (e = EnvError.invalidSpec ∧
      c.create_env spec maxcount w now =
        { cat := c, trace := {}, result := Except.error EnvError.invalidSpec }) ∨
    (e = EnvError.notFoundErr ∧
      c.create_env spec maxcount w now =
        { cat := (c.evict_loop maxcount).1, trace := (c.evict_loop maxcount).2.1,
          result := Except.error EnvError.notFoundErr }) ∨
    ((c.evict_loop maxcount).2.2 = true ∧
      c.create_env spec maxcount w now =
        { cat := { (c.evict_loop maxcount).1 with
            env_counter := (c.evict_loop maxcount).1.env_counter + 1 },
          trace := (c.evict_loop maxcount).2.1, result := Except.error e }) := by
  set r := c.create_env spec maxcount w now with hr
  simp only [TempCatalogue.create_env] at hr
  split at hr
  · rw [hr] at he
    simp only [Except.error.injEq] at he
    exact Or.inl ⟨he.symm, by rw [hr]⟩
  · split at hr
    next c₁ t₁ hev =>
      rw [hr] at he
      simp only [Except.error.injEq] at he
      refine Or.inr (Or.inl ⟨he.symm, ?_⟩)
      rw [hr, hev]
    next c₁ t₁ hev =>
      split at hr
      · rw [hr] at he
        simp only [Except.error.injEq] at he
        refine Or.inr (Or.inr ⟨by rw [hev], ?_⟩)
        rw [hr, ← he, hev]
      next install hsel =>
        split at hr
        · rw [hr] at he
          simp only [Except.error.injEq] at he
          refine Or.inr (Or.inr ⟨by rw [hev], ?_⟩)
          rw [hr, ← he, hev]
        · split at hr
          · rw [hr] at he
            simp only [Except.error.injEq] at he
            refine Or.inr (Or.inr ⟨by rw [hev], ?_⟩)
            rw [hr, ← he, hev]
          · split at hr
            · rw [hr] at he
              exact absurd he (by simp)
            · split at hr
              · rw [hr] at he
                simp only [Except.error.injEq] at he
                refine Or.inr (Or.inr ⟨by rw [hev], ?_⟩)
                rw [hr, ← he, hev]
              · rw [hr] at he
                exact absurd he (by simp)

theorem keysBounded_iff {c : TempCatalogue} :
    keysBounded c = true ↔ ∀ kv ∈ c.environments, kv.1 < c.env_counter := by
  unfold keysBounded
  rw [List.all_eq_true]
  constructor
  · intro h kv hkv
    simpa using h kv hkv
  · intro h kv hkv
    simpa using h kv hkv

theorem create_env_ok_fresh {c : TempCatalogue} {spec : EnvironmentSpec} {maxcount : Nat}
    {w : BuildWorld} {now : Nat} {env : TemporaryEnv}
    (hkb : keysBounded c = true)
    (hok : (c.create_env spec maxcount w now).result = Except.ok env) :
    keysBounded (c.create_env spec maxcount w now).cat = true ∧
    (c.create_env spec maxcount w now).cat.environments =
      (c.evict_loop maxcount).1.environments ++
        [((c.evict_loop maxcount).1.env_counter, env)] ∧
    (c.create_env spec maxcount w now).cat.environments.length
      = min c.environments.length maxcount + 1 ∧
    (c.create_env spec maxcount w now).cat.env_counter = c.env_counter + 1 ∧
    (c.create_env spec maxcount w now).cat.path = c.path := by
  obtain ⟨hev, hname, hsh, hcr, hlu, heq⟩ := create_env_ok_shape hok
  obtain ⟨l1, l2, l3, l4⟩ := evict_loop_shape c maxcount hev
  have hbd := keysBounded_iff.mp hkb
  have hfresh : ∀ p ∈ (c.evict_loop maxcount).1.environments,
      p.1 ≠ (c.evict_loop maxcount).1.env_counter := by
    intro p hp
    have hlt : p.1 < c.env_counter := hbd p (l4 p hp)
    omega
  have hins := @dictInsert_fresh _ _ _ env hfresh
  rw [heq]
  refine ⟨?_, by simpa using hins, ?_, by simp [l2], by simp [l3]⟩
  · rw [keysBounded_iff]
    intro kv hkv
    simp only at hkv ⊢
    rw [hins] at hkv
    rcases List.mem_append.mp hkv with hm | hm
    · have hlt : kv.1 < c.env_counter := hbd kv (l4 kv hm)
      omega
    · simp only [List.mem_singleton] at hm
      subst hm
      omega
  · simp only
    rw [hins, List.length_append, List.length_singleton, l1]

theorem iterCreate_shape (maxcount : Nat) :
    ∀ (steps : List (EnvironmentSpec × BuildWorld × Nat)) (c c' : TempCatalogue),
    keysBounded c = true → iterCreate maxcount c steps = some c' →
    keysBounded c' = true ∧
    c'.environments.length =
      (if steps.isEmpty then c.environments.length
       else min (c.environments.length + steps.length) (maxcount + 1)) := by
  intro steps
  induction steps with
  | nil =>
    intro c c' hkb hit
    simp only [iterCreate, Option.some.injEq] at hit
    subst hit
    simp [hkb]
  | cons x rest ih =>
    intro c c' hkb hit
    obtain ⟨s, w, t⟩ := x
    simp only [iterCreate] at hit
    cases hres : (c.create_env s maxcount w t).result with
    | error e =>
      rw [hres] at hit
      exact absurd hit (by simp)
    | ok env =>
      rw [hres] at hit
      have hfr := create_env_ok_fresh hkb hres
      have hrec := ih (c.create_env s maxcount w t).cat c' hfr.1 hit
      refine ⟨hrec.1, ?_⟩
      have hlen := hfr.2.2.1
      cases rest with
      | nil =>
        simp only [List.isEmpty_nil, if_true] at hrec
        simp only [List.isEmpty_cons, Bool.false_eq_true, if_false, List.length_cons,
          List.length_nil]
        omega
      | cons y ys =>
        simp only [List.isEmpty_cons, Bool.false_eq_true, if_false, List.length_cons] at hrec ⊢
        omega

theorem hashScan_none_iff {h : String} {now : Nat} {l : List (Nat × TemporaryEnv)} :
    hashScan h now l = none ↔ ∀ kv ∈ l, kv.2.spec_hashes.contains h = false := by
  induction l with
  | nil => simp [hashScan]
  | cons a rest ih =>
    obtain ⟨k, env⟩ := a
    by_cases hc : env.spec_hashes.contains h = true
    · simp only [hashScan, hc, if_pos]
      constructor
      · intro hx
        exact absurd hx (by simp)
      · intro hall
        have := hall (k, env) (List.mem_cons_self _ _)
        simp only at this
        rw [this] at hc
        exact absurd hc (by simp)
    · have hcf : env.spec_hashes.contains h = false := by
        cases hcc : env.spec_hashes.contains h
        · rfl
        · exact absurd hcc hc
      simp only [hashScan, hcf, Bool.false_eq_true, if_false]
      cases hrec : hashScan h now rest with
      | some p =>
        obtain ⟨l', e⟩ := p
        constructor
        · intro hx
          exact absurd hx (by simp)
        · intro hall
          have := ih.mpr (fun kv hkv => hall kv (List.mem_cons_of_mem _ hkv))
          rw [hrec] at this
          exact absurd this (by simp)
      | none =>
        constructor
        · intro _ kv hkv
          rcases List.mem_cons.mp hkv with he | hm
          · rw [he]
            exact hcf
          · exact (ih.mp hrec) kv hm
        · intro _
          rfl

theorem hashScan_append_hit {h : String} {now : Nat} {l₁ : List (Nat × TemporaryEnv)}
    {k : Nat} {env : TemporaryEnv}
    (hmiss : ∀ kv ∈ l₁, kv.2.spec_hashes.contains h = false)
    (hhit : env.spec_hashes.contains h = true) :
    hashScan h now (l₁ ++ [(k, env)]) =
      some (l₁ ++ [(k, updEnvHash now env)], updEnvHash now env) := by
  induction l₁ with
  | nil =>
    have hmem : h ∈ env.spec_hashes := by simpa using hhit
    simp [hashScan, hmem, updEnvHash]
  | cons a rest ih =>
    obtain ⟨k', env'⟩ := a
    have hm : env'.spec_hashes.contains h = false :=
      hmiss (k', env') (List.mem_cons_self _ _)
    simp only [List.cons_append, hashScan, hm, Bool.false_eq_true, if_false, List.append_eq]
    rw [ih (fun kv hkv => hmiss kv (List.mem_cons_of_mem _ hkv))]

/-- C1 — corrected.  Eviction bound on create: `create_env` first deletes
least-recently-used environments while the count exceeds `cache_maxcount`
and only then inserts the new one, so the steady-state size is
`cache_maxcount + 1`, not `cache_maxcount`: after any sequence of more than
`cache_maxcount` successful creations starting from an empty catalogue, the
catalogue holds exactly `cache_maxcount + 1` environments. -/
theorem C1_eviction_bound {p : String} {maxcount : Nat}
    {steps : List (EnvironmentSpec × BuildWorld × Nat)} {c' : TempCatalogue}
    (hN : maxcount < steps.length)
    (hit : iterCreate maxcount (emptyCatalogue p) steps = some c') :
    c'.environments.length = maxcount + 1 := by
  have hkb : keysBounded (emptyCatalogue p) = true := by
    rw [keysBounded_iff]
    intro kv hkv
    exact absurd hkv (by simp [emptyCatalogue])
  have h := (iterCreate_shape maxcount steps (emptyCatalogue p) c' hkb hit).2
  cases steps with
  | nil => exact absurd hN (by simp)
  | cons x xs =>
    simp only [List.isEmpty_cons, Bool.false_eq_true, if_false, emptyCatalogue,
      List.length_nil, List.length_cons] at h
    simp only [List.length_cons] at hN
    omega

/-- C1 counterexample: with `cache_maxcount = 1`, three successful creations
of pairwise-distinct specs from an empty catalogue leave 2 environments in
the catalogue, not `max_count = 1` as the claim states. -/
theorem C1_counterexample :
    (iterCreate 1 (emptyCatalogue "a/b")
        [(mkSpec "h1", goodWorld, 1), (mkSpec "h2", goodWorld, 2), (mkSpec "h3", goodWorld, 3)]).map
      (fun c => c.environments.length) = some 2 := by decide

/-- Witness for C1: one creation with `cache_maxcount = 0` from the empty
catalogue leaves exactly `0 + 1` environments. -/
theorem C1_witness :
    ({ path := "a/b", environments := [(0, mkEnv 0 1 1 ["h1"] [])],
       env_counter := 1 } : TempCatalogue).environments.length = 0 + 1 :=
  @C1_eviction_bound "a/b" 0 [(mkSpec "h1", goodWorld, 1)]
    { path := "a/b", environments := [(0, mkEnv 0 1 1 ["h1"] [])],
      env_counter := 1 } (by decide) (by decide)

theorem find_env_none {c : TempCatalogue} {spec : EnvironmentSpec} {now : Nat}
    (hmiss : hashScan spec.spec_hash now c.environments = none)
    (hsuff : suffScan spec now c.environments = Except.ok none) :
    c.find_env spec now = Except.ok (c, {}, none) := by
  unfold TempCatalogue.find_env TempCatalogue.find_env_hash TempCatalogue.find_sufficient_env
  rw [hmiss]
  dsimp only
  rw [hsuff]
  rfl

theorem find_or_create_build {c : TempCatalogue} {spec : EnvironmentSpec} {maxcount : Nat}
    {w : BuildWorld} {now : Nat}
    (hmiss : hashScan spec.spec_hash now c.environments = none)
    (hsuff : suffScan spec now c.environments = Except.ok none) :
    c.find_or_create_env spec maxcount w now =
      { cat := (c.create_env spec maxcount w now).cat,
        trace := Trace.comb {} (c.create_env spec maxcount w now).trace,
        result := (c.create_env spec maxcount w now).result } := by
  unfold TempCatalogue.find_or_create_env
  rw [find_env_none hmiss hsuff]

/-- C2 — corrected.  Exact-hit reuse: if a first `find_or_create_env`
finds nothing (both phases miss) and successfully builds, the new
environment records exactly the spec's fingerprint, and a second
`find_or_create_env` with the same spec returns that same environment
(with only `last_used` refreshed) through the exact (fingerprint) phase,
allocating no new name; the environment count grows by exactly 1 over the
two calls **provided the initial count is within `cache_maxcount`** (the
amendment: when the catalogue is over capacity the create phase first
evicts, so the net growth can be smaller than 1). -/
theorem C2_exact_hit_reuse {c : TempCatalogue} {spec : EnvironmentSpec} {maxcount : Nat}
    {w w' : BuildWorld} {now₁ now₂ : Nat} {env : TemporaryEnv}
    (hkb : keysBounded c = true)
    (hsize : c.environments.length ≤ maxcount)
    (hmiss : hashScan spec.spec_hash now₁ c.environments = none)
    (hsuff : suffScan spec now₁ c.environments = Except.ok none)
    (hok : (c.create_env spec maxcount w now₁).result = Except.ok env) :
    env.spec_hashes = [spec.spec_hash] ∧
    (c.find_or_create_env spec maxcount w now₁).cat.environments.length
      = c.environments.length + 1 ∧
    ((c.find_or_create_env spec maxcount w now₁).cat.find_or_create_env
        spec maxcount w' now₂).result = Except.ok (updEnvHash now₂ env) ∧
    ((c.find_or_create_env spec maxcount w now₁).cat.find_env_hash spec now₂).2.2
      = some (updEnvHash now₂ env) ∧
    ((c.find_or_create_env spec maxcount w now₁).cat.find_or_create_env
        spec maxcount w' now₂).cat.environments.length
      = (c.find_or_create_env spec maxcount w now₁).cat.environments.length ∧
    ((c.find_or_create_env spec maxcount w now₁).cat.find_or_create_env
        spec maxcount w' now₂).cat.env_counter
      = (c.find_or_create_env spec maxcount w now₁).cat.env_counter := by
  have hno := evict_loop_noop hsize
  have hforc := @find_or_create_build c spec maxcount w now₁ hmiss hsuff
  obtain ⟨hev, hname, hsh, hcr, hlu, heq⟩ := create_env_ok_shape hok
  obtain ⟨hkb', henvs, hlen, hctr, hpath⟩ := create_env_ok_fresh hkb hok
  rw [hno] at henvs hname
  dsimp only at henvs hname
  have hcontains : env.spec_hashes.contains spec.spec_hash = true := by
    rw [hsh]
    simp
  have hscan2 : hashScan spec.spec_hash now₂
      ((c.create_env spec maxcount w now₁).cat.environments)
      = some (c.environments ++ [(c.env_counter, updEnvHash now₂ env)],
          updEnvHash now₂ env) := by
    rw [henvs]
    exact hashScan_append_hit (hashScan_none_iff.mp hmiss) hcontains
  have hfeh : ((c.create_env spec maxcount w now₁).cat.find_env_hash spec now₂) =
      ({ (c.create_env spec maxcount w now₁).cat with
          environments := c.environments ++ [(c.env_counter, updEnvHash now₂ env)] },
        { saves := 1 }, some (updEnvHash now₂ env)) := by
    unfold TempCatalogue.find_env_hash
    rw [hscan2]
  have hfe : ((c.create_env spec maxcount w now₁).cat.find_env spec now₂) =
      Except.ok ({ (c.create_env spec maxcount w now₁).cat with
          environments := c.environments ++ [(c.env_counter, updEnvHash now₂ env)] },
        { saves := 1 }, some (updEnvHash now₂ env)) := by
    unfold TempCatalogue.find_env
    rw [hfeh]
  have hfoc2 : ((c.create_env spec maxcount w now₁).cat.find_or_create_env
      spec maxcount w' now₂) =
      { cat := { (c.create_env spec maxcount w now₁).cat with
          environments := c.environments ++ [(c.env_counter, updEnvHash now₂ env)] },
        trace := { saves := 1 }, result := Except.ok (updEnvHash now₂ env) } := by
    unfold TempCatalogue.find_or_create_env
    rw [hfe]
  refine ⟨hsh, ?_, ?_, ?_, ?_, ?_⟩
  · rw [hforc]
    dsimp only
    omega
  · rw [hforc]
    dsimp only
    rw [hfoc2]
  · rw [hforc]
    dsimp only
    rw [hfeh]
  · rw [hforc]
    dsimp only
    rw [hfoc2, henvs]
    simp
  · rw [hforc]
    dsimp only
    rw [hfoc2]

/-- C2 counterexample: with `cache_maxcount = 0` and a catalogue already
holding one environment, a first `find_or_create_env` of a fresh spec
(python >= 3.13) builds after evicting, and the second exact-hits — both
succeed, yet the environment count is unchanged rather than increased
by 1. -/
theorem C2_counterexample :
    ((oneEnvCat (mkEnv 0 0 0 ["h0"] [])).find_or_create_env spec313 0 world313 5).result.isOk
        = true ∧
    (((oneEnvCat (mkEnv 0 0 0 ["h0"] [])).find_or_create_env spec313 0 world313 5).cat.find_or_create_env
        spec313 0 world313 6).result.isOk = true ∧
    (((oneEnvCat (mkEnv 0 0 0 ["h0"] [])).find_or_create_env spec313 0 world313 5).cat.find_or_create_env
        spec313 0 world313 6).cat.environments.length
      = (oneEnvCat (mkEnv 0 0 0 ["h0"] [])).environments.length := by
  exact ⟨by decide, by decide, by decide⟩

/-- Witness for C2: a concrete first build from the empty catalogue followed
by an exact-phase hit. -/
theorem C2_witness :
    (mkEnv 0 1 1 ["h1"] []).spec_hashes = [(mkSpec "h1").spec_hash] ∧
    ((emptyCatalogue "a/b").find_or_create_env (mkSpec "h1") 1 goodWorld 1).cat.environments.length
      = (emptyCatalogue "a/b").environments.length + 1 ∧
    (((emptyCatalogue "a/b").find_or_create_env (mkSpec "h1") 1 goodWorld 1).cat.find_or_create_env
        (mkSpec "h1") 1 goodWorld 2).result = Except.ok (updEnvHash 2 (mkEnv 0 1 1 ["h1"] [])) ∧
    (((emptyCatalogue "a/b").find_or_create_env (mkSpec "h1") 1 goodWorld 1).cat.find_env_hash
        (mkSpec "h1") 2).2.2 = some (updEnvHash 2 (mkEnv 0 1 1 ["h1"] [])) ∧
    (((emptyCatalogue "a/b").find_or_create_env (mkSpec "h1") 1 goodWorld 1).cat.find_or_create_env
        (mkSpec "h1") 1 goodWorld 2).cat.environments.length
      = ((emptyCatalogue "a/b").find_or_create_env (mkSpec "h1") 1 goodWorld 1).cat.environments.length ∧
    (((emptyCatalogue "a/b").find_or_create_env (mkSpec "h1") 1 goodWorld 1).cat.find_or_create_env
        (mkSpec "h1") 1 goodWorld 2).cat.env_counter
      = ((emptyCatalogue "a/b").find_or_create_env (mkSpec "h1") 1 goodWorld 1).cat.env_counter :=
  @C2_exact_hit_reuse (emptyCatalogue "a/b") (mkSpec "h1") 1
    goodWorld goodWorld 1 2 (mkEnv 0 1 1 ["h1"] [])
    (by decide) (by decide) (by decide) (by decide) (by decide)

/-- C4 — corrected.  Create-failure state: when `create_env` raises, no
environment is inserted and the only effects are those of the eviction
phase — but contrary to the claim, the name counter increment persists on
every failure past spec validation, evictions performed before the failure
persist (each with its own save), and no failure path removes the partially
built directory (`rmtrees` stays exactly the eviction phase's list; in
particular it is empty whenever the catalogue was within capacity). -/
theorem C4_create_failure_state {c : TempCatalogue} {spec : EnvironmentSpec}
    {maxcount : Nat} {w : BuildWorld} {now : Nat} {e : EnvError}
    (he : (c.create_env spec maxcount w now).result = Except.error e) :
    ((c.create_env spec maxcount w now).cat.environments = c.environments ∨
      (c.create_env spec maxcount w now).cat.environments
        = (c.evict_loop maxcount).1.environments) ∧
    ((c.create_env spec maxcount w now).trace = {} ∨
      (c.create_env spec maxcount w now).trace = (c.evict_loop maxcount).2.1) ∧
    (e ≠ EnvError.invalidSpec ∧ e ≠ EnvError.notFoundErr →
      (c.create_env spec maxcount w now).cat.env_counter = c.env_counter + 1) ∧
    (c.environments.length ≤ maxcount →
      (c.create_env spec maxcount w now).trace.rmtrees = []) := by
  rcases create_env_error_shape he with ⟨hei, heq⟩ | ⟨hei, heq⟩ | ⟨hev, heq⟩
  · rw [heq]
    exact ⟨Or.inl rfl, Or.inl rfl, fun hne => absurd hei hne.1, fun _ => rfl⟩
  · rw [heq]
    refine ⟨Or.inr rfl, Or.inr rfl, fun hne => absurd hei hne.2, ?_⟩
    intro hsize
    dsimp only
    rw [evict_loop_noop hsize]
  · rw [heq]
    refine ⟨Or.inr rfl, Or.inr rfl, ?_, ?_⟩
    · intro _
      dsimp only
      rw [(evict_loop_shape c maxcount hev).2.1]
    · intro hsize
      dsimp only
      rw [evict_loop_noop hsize]

/-- C4 counterexample: a failed interpreter search leaves the counter
incremented (claim: "the counter is left exactly as it was"), and a failed
dependency install removes no directory (claim: "any partially built
environment directory is removed"). -/
theorem C4_counterexample :
    ((emptyCatalogue "a/b").create_env (mkSpec "h1") 5 worldNoPython 1).result
        = Except.error EnvError.pythonNotFound ∧
    ((emptyCatalogue "a/b").create_env (mkSpec "h1") 5 worldNoPython 1).cat.env_counter = 1 ∧
    (emptyCatalogue "a/b").env_counter = 0 ∧
    ((emptyCatalogue "a/b").create_env specCowsay 5 worldInstallFails 1).result
        = Except.error EnvError.installFail ∧
    ((emptyCatalogue "a/b").create_env specCowsay 5 worldInstallFails 1).trace.rmtrees = [] :=
  ⟨by decide, by decide, by decide, by decide, by decide⟩

/-- Witness for C4 at a concrete failing input (no interpreter found). -/
theorem C4_witness :
    (((emptyCatalogue "a/b").create_env (mkSpec "h1") 5 worldNoPython 1).cat.environments
        = (emptyCatalogue "a/b").environments ∨
      ((emptyCatalogue "a/b").create_env (mkSpec "h1") 5 worldNoPython 1).cat.environments
        = ((emptyCatalogue "a/b").evict_loop 5).1.environments) ∧
    (((emptyCatalogue "a/b").create_env (mkSpec "h1") 5 worldNoPython 1).trace = {} ∨
      ((emptyCatalogue "a/b").create_env (mkSpec "h1") 5 worldNoPython 1).trace
        = ((emptyCatalogue "a/b").evict_loop 5).2.1) ∧
    (EnvError.pythonNotFound ≠ EnvError.invalidSpec ∧
        EnvError.pythonNotFound ≠ EnvError.notFoundErr →
      ((emptyCatalogue "a/b").create_env (mkSpec "h1") 5 worldNoPython 1).cat.env_counter
        = (emptyCatalogue "a/b").env_counter + 1) ∧
    ((emptyCatalogue "a/b").environments.length ≤ 5 →
      ((emptyCatalogue "a/b").create_env (mkSpec "h1") 5 worldNoPython 1).trace.rmtrees = []) :=
  @C4_create_failure_state (emptyCatalogue "a/b") (mkSpec "h1") 5 worldNoPython 1
    EnvError.pythonNotFound (by decide)

/-- C5 — corrected.  `save()` does not write to a temporary file and rename:
it runs `makedirs`, opens `catalogue.json` itself with mode `"w"` (which
truncates it in place) and then writes the document into that handle, so no
rename ever occurs and a concurrent reader can observe a truncated
intermediate state of the catalogue file. -/
theorem C5_save_truncates_in_place (c : TempCatalogue) :
    c.save_fsops = [FsOp.makedirs c.catalogue_folder, FsOp.openTruncate c.path,
      FsOp.writeContent c.path] ∧
    (∀ op ∈ c.save_fsops, op.isRename = false) ∧
    FileView.truncated ∈ fileStates c.path c.save_fsops FileView.oldDoc := by
  refine ⟨rfl, ?_, ?_⟩
  · intro op hop
    simp only [TempCatalogue.save_fsops, List.mem_cons, List.mem_singleton,
      List.not_mem_nil, or_false] at hop
    rcases hop with h | h | h <;> subst h <;> rfl
  · simp [fileStates, applyFsOp, TempCatalogue.save_fsops]

/-- C5 counterexample: at a concrete catalogue, `save()` touches no
`catalogue.json.tmp`, performs no rename, and exposes a truncated
intermediate state of `catalogue.json` — the claim's write-to-temp-then-
rename protocol does not happen. -/
theorem C5_counterexample :
    ((emptyCatalogue "a/catalogue.json").save_fsops.all
        (fun op => !(op.touches "a/catalogue.json.tmp"))) = true ∧
    ((emptyCatalogue "a/catalogue.json").save_fsops.all (fun op => !op.isRename)) = true ∧
    FileView.truncated ∈ fileStates "a/catalogue.json"
      (emptyCatalogue "a/catalogue.json").save_fsops FileView.oldDoc :=
  ⟨by decide, by decide, by decide⟩

/-- C6 — corrected.  `load` never consults the filesystem: its result is
identical for any two filesystem states, the stored environments are
restored verbatim (no pruning of environments whose directory or parent
interpreter is gone), and a missing or corrupt file yields the empty
catalogue. -/
theorem C6_load_no_prune (doc : Option StoredDoc) (path : String)
    (fs fs' : String → Bool) :
    TempCatalogue.load doc path fs = TempCatalogue.load doc path fs' ∧
    (∀ d, doc = some d → (TempCatalogue.load doc path fs).environments = d.environments) ∧
    TempCatalogue.load none path fs = emptyCatalogue path := by
  refine ⟨?_, ?_, rfl⟩
  · cases doc <;> rfl
  · intro d hd
    subst hd
    rfl

/-- C6 counterexample: a stored environment whose directory and parent
interpreter do not exist (the filesystem predicate is constantly false) is
still present after `load` — the claim's prune-on-load does not happen. -/
theorem C6_counterexample :
    (TempCatalogue.load (some docC6) "a/b" (fun _ => false)).environments
      = [(0, mkEnv 0 0 0 ["h0"] [])] ∧
    (fun (_ : String) => false) (mkEnv 0 0 0 ["h0"] []).path = false :=
  ⟨by decide, rfl⟩

/-- Witness for C6 at a concrete stored document. -/
theorem C6_witness :
    (TempCatalogue.load (some docC6) "a/b" (fun _ => false)
        = TempCatalogue.load (some docC6) "a/b" (fun _ => true)) ∧
    (∀ d, (some docC6 : Option StoredDoc) = some d →
      (TempCatalogue.load (some docC6) "a/b" (fun _ => false)).environments
        = d.environments) ∧
    TempCatalogue.load none "a/b" (fun _ => false) = emptyCatalogue "a/b" :=
  C6_load_no_prune (some docC6) "a/b" (fun _ => false) (fun _ => true)

theorem expireFold_spec (lifetime now : Nat) :
    ∀ (todo keep : List (Nat × TemporaryEnv)) (c : TempCatalogue) (t : Trace),
    c.environments = keep ++ todo →
    ((keep ++ todo).map Prod.fst).Nodup →
    expireFold lifetime now c t todo = Except.ok
      ({ c with environments := keep ++ todo.filter (fun kv => !isExpired lifetime now kv) },
        t.comb { saves := (todo.filter (isExpired lifetime now)).length,
                 rmtrees := (todo.filter (isExpired lifetime now)).map (fun kv => kv.2.path) }) := by
  intro todo
  induction todo with
  | nil =>
    intro keep c t hc hnd
    simp only [List.append_nil] at hc
    subst hc
    simp [expireFold, Trace.comb]
  | cons kv rest ih =>
    intro keep c t hc hnd
    have hnd' := hnd
    rw [List.map_append, List.map_cons, List.nodup_append] at hnd'
    obtain ⟨hndk, hndr, hdisj⟩ := hnd'
    by_cases hexp : lifetime < now - kv.2.created_on
    · have hfe : isExpired lifetime now kv = true := by
        simpa [isExpired] using hexp
      have hkeep : ∀ p ∈ keep, p.1 ≠ kv.1 := by
        intro p hp hpk
        exact hdisj (List.mem_map_of_mem Prod.fst hp)
          (by rw [hpk]; exact List.mem_cons_self _ _)
      have hfind : c.environments.find? (fun p => p.1 == kv.1) = some kv := by
        rw [hc]
        exact find?_key_append keep kv rest hkeep
      have herase : c.environments.eraseP (fun p => p.1 == kv.1) = keep ++ rest := by
        rw [hc]
        exact eraseP_key_append keep kv rest hkeep
      simp only [expireFold]
      rw [if_pos hexp]
      unfold TempCatalogue.delete_env
      rw [hfind]
      dsimp only
      rw [herase]
      have hc2 : ({ c with environments := keep ++ rest } : TempCatalogue).environments
          = keep ++ rest := rfl
      have hnd2 : ((keep ++ rest).map Prod.fst).Nodup := by
        have hsub : List.Sublist (keep ++ rest) (keep ++ kv :: rest) :=
          List.Sublist.append_left (List.sublist_cons_self kv rest) keep
        exact hnd.sublist (hsub.map Prod.fst)
      rw [ih keep { c with environments := keep ++ rest }
        (t.comb { saves := 1, rmtrees := [kv.2.path] }) hc2 hnd2]
      have hfil1 : List.filter (fun q => !isExpired lifetime now q) (kv :: rest)
          = List.filter (fun q => !isExpired lifetime now q) rest := by
        simp [List.filter_cons, hfe]
      have hfil2 : List.filter (isExpired lifetime now) (kv :: rest)
          = kv :: List.filter (isExpired lifetime now) rest := by
        simp [List.filter_cons, hfe]
      rw [hfil1, hfil2]
      have htr : (t.comb { saves := 1, rmtrees := [kv.2.path] }).comb
          { saves := (List.filter (isExpired lifetime now) rest).length,
            rmtrees := List.map (fun q => q.2.path)
              (List.filter (isExpired lifetime now) rest) }
          = t.comb
            { saves := (kv :: List.filter (isExpired lifetime now) rest).length,
              rmtrees := List.map (fun q => q.2.path)
                (kv :: List.filter (isExpired lifetime now) rest) } := by
        simp only [Trace.comb, Trace.mk.injEq, List.length_cons, List.map_cons]
        constructor
        · omega
        · simp
      rw [htr]
    · have hfe : isExpired lifetime now kv = false := by
        simp [isExpired, hexp]
      simp only [expireFold]
      rw [if_neg hexp]
      have hc' : c.environments = (keep ++ [kv]) ++ rest := by
        rw [hc]
        simp
      have hnd'' : (((keep ++ [kv]) ++ rest).map Prod.fst).Nodup := by
        have hql : (keep ++ [kv]) ++ rest = keep ++ kv :: rest := by simp
        rw [hql]
        exact hnd
      rw [ih (keep ++ [kv]) c t hc' hnd'']
      have hfil1 : List.filter (fun q => !isExpired lifetime now q) (kv :: rest)
          = kv :: List.filter (fun q => !isExpired lifetime now q) rest := by
        simp [List.filter_cons, hfe]
      have hfil2 : List.filter (isExpired lifetime now) (kv :: rest)
          = List.filter (isExpired lifetime now) rest := by
        simp [List.filter_cons, hfe]
      rw [hfil1, hfil2]
      have hassoc : (keep ++ [kv]) ++ List.filter (fun q => !isExpired lifetime now q) rest
          = keep ++ kv :: List.filter (fun q => !isExpired lifetime now q) rest := by
        simp
      rw [hassoc]

/-- C8 — corrected.  Expiry: for a **nonzero** `max_age`, `expire_caches`
deletes exactly the environments strictly older than `max_age` (each
deletion performing its own save via `delete_env`) and saves once more at
the end; but when `max_age` is zero the `if lifetime:` guard is falsy, so —
contrary to the claim — nothing is deleted at all and only the final save
runs. -/
theorem C8_expire {c : TempCatalogue} (lifetime now : Nat)
    (hnd : keysNodup c) :
    (lifetime = 0 → c.expire_caches lifetime now = Except.ok (c, { saves := 1 })) ∧
    (lifetime ≠ 0 → c.expire_caches lifetime now = Except.ok
      ({ c with environments :=
          c.environments.filter (fun kv => !isExpired lifetime now kv) },
        { saves := (c.environments.filter (isExpired lifetime now)).length + 1,
          rmtrees := (c.environments.filter (isExpired lifetime now)).map
            (fun kv => kv.2.path) })) := by
  constructor
  · intro h0
    subst h0
    rfl
  · intro hne
    unfold TempCatalogue.expire_caches
    rw [if_neg (by simpa using hne)]
    have hc : c.environments = [] ++ c.environments := rfl
    have hndl : (([] ++ c.environments).map Prod.fst).Nodup := hnd
    rw [expireFold_spec lifetime now c.environments [] c {} hc hndl]
    simp [Trace.comb, Trace.addSave]

/-- C8 counterexample: with `max_age = 0`, an environment that is strictly
older than `max_age` (age 100 > 0) survives `expire_caches`, although the
claim demands every strictly older environment be deleted "including when
max_age is zero". -/
theorem C8_counterexample :
    catStale.expire_caches 0 100 = Except.ok (catStale, { saves := 1 }) ∧
    100 - (mkEnv 0 0 0 ["h0"] []).created_on > 0 :=
  ⟨by decide, by decide⟩

/-- Witness for C8 at a concrete catalogue: one stale environment with
`max_age = 1`, `now = 100`. -/
theorem C8_witness :
    ((1 : Nat) = 0 → catStale.expire_caches 1 100 = Except.ok (catStale, { saves := 1 })) ∧
    ((1 : Nat) ≠ 0 → catStale.expire_caches 1 100 = Except.ok
      ({ catStale with
          environments := catStale.environments.filter (fun kv => !isExpired 1 100 kv) },
        { saves := (catStale.environments.filter (isExpired 1 100)).length + 1,
          rmtrees := (catStale.environments.filter (isExpired 1 100)).map
            (fun kv => kv.2.path) })) :=
  C8_expire 1 100 (show (catStale.environments.map Prod.fst).Nodup by decide)

theorem hashScan_some_shape {h : String} {now : Nat} :
    ∀ {l l' : List (Nat × TemporaryEnv)} {e : TemporaryEnv},
    hashScan h now l = some (l', e) →
    ∃ l₁ kv l₂, l = l₁ ++ kv :: l₂ ∧ kv.2.spec_hashes.contains h = true ∧
      e = updEnvHash now kv.2 ∧ l' = l₁ ++ (kv.1, updEnvHash now kv.2) :: l₂ := by
  intro l
  induction l with
  | nil =>
    intro l' e hs
    exact absurd hs (by simp [hashScan])
  | cons a rest ih =>
    obtain ⟨k, env⟩ := a
    intro l' e hs
    by_cases hc : env.spec_hashes.contains h = true
    · simp only [hashScan, hc, if_pos, Option.some.injEq, Prod.mk.injEq] at hs
      obtain ⟨h1, h2⟩ := hs
      refine ⟨[], (k, env), rest, rfl, hc, h2.symm, ?_⟩
      rw [← h1]
      rfl
    · have hcf : env.spec_hashes.contains h = false := by
        cases hcc : env.spec_hashes.contains h
        · rfl
        · exact absurd hcc hc
      simp only [hashScan, hcf, Bool.false_eq_true, if_false] at hs
      cases hin : hashScan h now rest with
      | none =>
        rw [hin] at hs
        exact absurd hs (by simp)
      | some p =>
        obtain ⟨li, ei⟩ := p
        rw [hin] at hs
        simp only [Option.some.injEq, Prod.mk.injEq] at hs
        obtain ⟨h1, h2⟩ := hs
        obtain ⟨l₁, kv, l₂, g1, g2, g3, g4⟩ := ih hin
        refine ⟨(k, env) :: l₁, kv, l₂, ?_, g2, h2 ▸ g3, ?_⟩
        · rw [g1]
          simp
        · rw [← h1, g4]
          simp

theorem suffScan_some_shape {spec : EnvironmentSpec} {now : Nat} :
    ∀ {l l' : List (Nat × TemporaryEnv)} {e : TemporaryEnv},
    suffScan spec now l = Except.ok (some (l', e)) →
    ∃ l₁ kv l₂, l = l₁ ++ kv :: l₂ ∧
      e = updEnvSuff spec now kv.2 ∧ l' = l₁ ++ (kv.1, updEnvSuff spec now kv.2) :: l₂ := by
  intro l
  induction l with
  | nil =>
    intro l' e hs
    exact absurd hs (by simp [suffScan])
  | cons a rest ih =>
    obtain ⟨k, env⟩ := a
    intro l' e hs
    by_cases hps : pythonSkip spec env = true
    · simp only [suffScan, hps, if_pos] at hs
      cases hin : suffScan spec now rest with
      | error e' =>
        rw [hin] at hs
        exact absurd hs (by simp)
      | ok o =>
        rw [hin] at hs
        cases o with
        | none => exact absurd hs (by simp)
        | some p =>
          obtain ⟨li, ei⟩ := p
          simp only [Except.ok.injEq, Option.some.injEq, Prod.mk.injEq] at hs
          obtain ⟨h1, h2⟩ := hs
          obtain ⟨l₁, kv, l₂, g1, g2, g3⟩ := ih hin
          refine ⟨(k, env) :: l₁, kv, l₂, ?_, h2 ▸ g2, ?_⟩
          · rw [g1]
            simp
          · rw [← h1, g3]
            simp
    · have hpf : pythonSkip spec env = false := by
        cases hps' : pythonSkip spec env
        · rfl
        · exact absurd hps' hps
      cases hbc : buildCacheSpec env.installed_modules with
      | none =>
        simp only [suffScan, hpf, Bool.false_eq_true, if_false, hbc] at hs
        exact absurd hs (by simp)
      | some cs =>
        by_cases hds : depsSatisfied cs spec.details.dependencies_spec = true
        · simp only [suffScan, hpf, Bool.false_eq_true, if_false, hbc, hds, if_pos,
            Except.ok.injEq, Option.some.injEq, Prod.mk.injEq] at hs
          obtain ⟨h1, h2⟩ := hs
          refine ⟨[], (k, env), rest, rfl, h2.symm, ?_⟩
          rw [← h1]
          rfl
        · have hdf : depsSatisfied cs spec.details.dependencies_spec = false := by
            cases hds' : depsSatisfied cs spec.details.dependencies_spec
            · rfl
            · exact absurd hds' hds
          simp only [suffScan, hpf, Bool.false_eq_true, if_false, hbc, hdf] at hs
          cases hin : suffScan spec now rest with
          | error e' =>
            rw [hin] at hs
            exact absurd hs (by simp)
          | ok o =>
            rw [hin] at hs
            cases o with
            | none => exact absurd hs (by simp)
            | some p =>
              obtain ⟨li, ei⟩ := p
              simp only [Except.ok.injEq, Option.some.injEq, Prod.mk.injEq] at hs
              obtain ⟨h1, h2⟩ := hs
              obtain ⟨l₁, kv, l₂, g1, g2, g3⟩ := ih hin
              refine ⟨(k, env) :: l₁, kv, l₂, ?_, h2 ▸ g2, ?_⟩
              · rw [g1]
                simp
              · rw [← h1, g3]
                simp

theorem acceptEnv_of_skip {spec : EnvironmentSpec} {env : TemporaryEnv}
    (h : pythonSkip spec env = true) : acceptEnv spec env = false := by
  simp [acceptEnv, h]

theorem acceptEnv_of_cs {spec : EnvironmentSpec} {env : TemporaryEnv}
    {cs : List (String × PyVersion)} (hps : pythonSkip spec env = false)
    (hbc : buildCacheSpec env.installed_modules = some cs) :
    acceptEnv spec env = depsSatisfied cs spec.details.dependencies_spec := by
  simp [acceptEnv, hps, hbc]

theorem suffScan_wf_none (spec : EnvironmentSpec) (now : Nat) :
    ∀ l : List (Nat × TemporaryEnv),
    (∀ kv ∈ l, pythonSkip spec kv.2 = true ∨ wellFormedModules kv.2.installed_modules = true) →
    l.find? (fun kv => acceptEnv spec kv.2) = none →
    suffScan spec now l = Except.ok none := by
  intro l
  induction l with
  | nil => intro _ _; rfl
  | cons a rest ih =>
    obtain ⟨k, env⟩ := a
    intro hwf hfind
    have hnone := List.find?_eq_none.mp hfind
    have hrest : rest.find? (fun kv => acceptEnv spec kv.2) = none :=
      List.find?_eq_none.mpr (fun x hx => hnone x (List.mem_cons_of_mem _ hx))
    have hrec := ih (fun kv hkv => hwf kv (List.mem_cons_of_mem _ hkv)) hrest
    by_cases hps : pythonSkip spec env = true
    · simp only [suffScan, hps, if_pos, hrec]
    · have hpf : pythonSkip spec env = false := by
        cases hx : pythonSkip spec env
        · rfl
        · exact absurd hx hps
      rcases hwf (k, env) (List.mem_cons_self _ _) with hskip | hwfm
      · exact absurd hskip hps
      · obtain ⟨cs, hbc⟩ := Option.isSome_iff_exists.mp hwfm
        have hacc : ¬ acceptEnv spec (k, env).2 = true := by
          have := hnone (k, env) (List.mem_cons_self _ _)
          simpa using this
        have hdf : depsSatisfied cs spec.details.dependencies_spec = false := by
          have := acceptEnv_of_cs hpf hbc
          cases hd : depsSatisfied cs spec.details.dependencies_spec
          · rfl
          · rw [hd] at this
            exact absurd this hacc
        simp only [suffScan, hpf, Bool.false_eq_true, if_false, hbc, hdf, hrec]

theorem suffScan_wf_some (spec : EnvironmentSpec) (now : Nat) :
    ∀ (l : List (Nat × TemporaryEnv)) (kv : Nat × TemporaryEnv),
    (∀ q ∈ l, pythonSkip spec q.2 = true ∨ wellFormedModules q.2.installed_modules = true) →
    l.find? (fun q => acceptEnv spec q.2) = some kv →
    ∃ l₁ l₂, l = l₁ ++ kv :: l₂ ∧
      suffScan spec now l = Except.ok
        (some (l₁ ++ (kv.1, updEnvSuff spec now kv.2) :: l₂, updEnvSuff spec now kv.2)) := by
  intro l
  induction l with
  | nil =>
    intro kv _ hfind
    exact absurd hfind (by simp)
  | cons a rest ih =>
    obtain ⟨k, env⟩ := a
    intro kv hwf hfind
    by_cases hacc : acceptEnv spec env = true
    · have hkv : kv = (k, env) := by
        have : List.find? (fun q => acceptEnv spec q.2) ((k, env) :: rest) = some (k, env) := by
          simp [List.find?_cons, hacc]
        rw [this] at hfind
        exact (Option.some.injEq _ _ ▸ hfind).symm
      subst hkv
      have hpf : pythonSkip spec env = false := by
        cases hx : pythonSkip spec env
        · rfl
        · exact absurd (acceptEnv_of_skip hx) (by simp [hacc])
      rcases hwf (k, env) (List.mem_cons_self _ _) with hskip | hwfm
      · exact absurd hskip (by simp [hpf])
      · obtain ⟨cs, hbc⟩ := Option.isSome_iff_exists.mp hwfm
        have hdt : depsSatisfied cs spec.details.dependencies_spec = true := by
          rw [← acceptEnv_of_cs hpf hbc]
          exact hacc
        refine ⟨[], rest, rfl, ?_⟩
        simp only [suffScan, hpf, Bool.false_eq_true, if_false, hbc, hdt, if_pos]
        rfl
    · have haccf : acceptEnv spec env = false := by
        cases hx : acceptEnv spec env
        · rfl
        · exact absurd hx hacc
      have hfind' : rest.find? (fun q => acceptEnv spec q.2) = some kv := by
        rw [List.find?_cons] at hfind
        simpa [haccf] using hfind
      obtain ⟨l₁, l₂, hdec, hscan⟩ :=
        ih kv (fun q hq => hwf q (List.mem_cons_of_mem _ hq)) hfind'
      refine ⟨(k, env) :: l₁, l₂, by rw [hdec]; simp, ?_⟩
      by_cases hps : pythonSkip spec env = true
      · simp only [suffScan, hps, if_pos, hscan]
        simp
      · have hpf : pythonSkip spec env = false := by
          cases hx : pythonSkip spec env
          · rfl
          · exact absurd hx hps
        rcases hwf (k, env) (List.mem_cons_self _ _) with hskip | hwfm
        · exact absurd hskip hps
        · obtain ⟨cs, hbc⟩ := Option.isSome_iff_exists.mp hwfm
          have hdf : depsSatisfied cs spec.details.dependencies_spec = false := by
            have := acceptEnv_of_cs hpf hbc
            cases hd : depsSatisfied cs spec.details.dependencies_spec
            · rfl
            · rw [hd] at this
              exact absurd this (by simp [haccf])
          simp only [suffScan, hpf, Bool.false_eq_true, if_false, hbc, hdf, hscan]
          simp

theorem suffScan_ok_none_wf {spec : EnvironmentSpec} {now : Nat} :
    ∀ l : List (Nat × TemporaryEnv), suffScan spec now l = Except.ok none →
    ∀ kv ∈ l, pythonSkip spec kv.2 = true ∨ wellFormedModules kv.2.installed_modules = true := by
  intro l
  induction l with
  | nil =>
    intro _ kv hkv
    cases hkv
  | cons a rest ih =>
    obtain ⟨k, env⟩ := a
    intro hok kv hkv
    by_cases hps : pythonSkip spec env = true
    · have hinner : suffScan spec now rest = Except.ok none := by
        cases hin : suffScan spec now rest with
        | error e =>
          simp [suffScan, hps, hin] at hok
        | ok o =>
          cases o with
          | none => rfl
          | some p =>
            obtain ⟨li, ei⟩ := p
            simp [suffScan, hps, hin] at hok
      rcases List.mem_cons.mp hkv with he | hm
      · rw [he]
        exact Or.inl hps
      · exact ih hinner kv hm
    · have hpf : pythonSkip spec env = false := by
        cases hx : pythonSkip spec env
        · rfl
        · exact absurd hx hps
      cases hbc : buildCacheSpec env.installed_modules with
      | none =>
        simp [suffScan, hpf, hbc] at hok
      | some cs =>
        by_cases hds : depsSatisfied cs spec.details.dependencies_spec = true
        · simp [suffScan, hpf, hbc, hds] at hok
        · have hdf : depsSatisfied cs spec.details.dependencies_spec = false := by
            cases hx : depsSatisfied cs spec.details.dependencies_spec
            · rfl
            · exact absurd hx hds
          have hinner : suffScan spec now rest = Except.ok none := by
            cases hin : suffScan spec now rest with
            | error e =>
              simp [suffScan, hpf, hbc, hdf, hin] at hok
            | ok o =>
              cases o with
              | none => rfl
              | some p =>
                obtain ⟨li, ei⟩ := p
                simp [suffScan, hpf, hbc, hdf, hin] at hok
          rcases List.mem_cons.mp hkv with he | hm
          · rw [he]
            exact Or.inr (by simp [wellFormedModules, hbc])
          · exact ih hinner kv hm

theorem buildCacheSpec_append {mods : List String} {m : String} {n : String} {v : PyVersion}
    {cs : List (String × PyVersion)}
    (hcs : buildCacheSpec mods = some cs) (hm : parseModule m = some (n, v)) :
    buildCacheSpec (mods ++ [m]) = some (dictInsert cs n v) := by
  unfold buildCacheSpec at hcs ⊢
  rw [List.foldlM_append, hcs]
  simp [hm]

theorem find?_map_dictUpdate {as : List (String × PyVersion)} {n k : String} {v : PyVersion}
    (h : k ≠ n) :
    List.find? (fun p => p.1 == k)
        (as.map (fun p => if (p.1 == n) = true then (n, v) else p))
      = List.find? (fun p => p.1 == k) as := by
  have hnk : (n == k) = false := by
    simp [Ne.symm h]
  induction as with
  | nil => rfl
  | cons a as ih =>
    by_cases ha : (a.1 == n) = true
    · have ha' : a.1 = n := by simpa using ha
      have hak : (a.1 == k) = false := by
        simp [ha', Ne.symm h]
      simp only [List.map_cons, List.find?_cons, ha, if_pos, hnk, hak]
      exact ih
    · have haf : (a.1 == n) = false := by
        cases hx : (a.1 == n)
        · rfl
        · exact absurd hx ha
      cases hak : (a.1 == k) with
      | true =>
        simp only [List.map_cons, List.find?_cons, haf, Bool.false_eq_true, if_false, hak]
      | false =>
        simp only [List.map_cons, List.find?_cons, haf, Bool.false_eq_true, if_false, hak]
        exact ih

theorem dictGetVer_dictInsert_ne {cs : List (String × PyVersion)} {n k : String}
    {v : PyVersion} (h : k ≠ n) :
    dictGetVer (dictInsert cs n v) k = dictGetVer cs k := by
  have hnk : (n == k) = false := by
    simp [Ne.symm h]
  unfold dictInsert
  split
  · unfold dictGetVer
    rw [find?_map_dictUpdate h]
  · unfold dictGetVer
    rw [List.find?_append]
    have hlast : List.find? (fun p => p.1 == k) [(n, v)] = none := by
      simp [hnk]
    rw [hlast]
    simp

theorem depsSatisfied_dictInsert_ne {cs : List (String × PyVersion)} {n : String}
    {v : PyVersion} {reqs : List Requirement}
    (h : ∀ req ∈ reqs, req.name ≠ n) :
    depsSatisfied (dictInsert cs n v) reqs = depsSatisfied cs reqs := by
  unfold depsSatisfied
  induction reqs with
  | nil => rfl
  | cons r rs ih =>
    simp only [List.all_cons]
    rw [dictGetVer_dictInsert_ne (h r (List.mem_cons_self _ _)),
      ih (fun q hq => h q (List.mem_cons_of_mem _ hq))]

theorem depsSatisfied_eq_false_iff {cs : List (String × PyVersion)}
    {reqs : List Requirement} :
    depsSatisfied cs reqs = false ↔
      ∃ req ∈ reqs, dictGetVer cs req.name = none ∨
        ∃ ver, dictGetVer cs req.name = some ver ∧
          specSetContains req.specifier ver = false := by
  unfold depsSatisfied
  rw [List.all_eq_false]
  constructor
  · rintro ⟨req, hreq, hp⟩
    refine ⟨req, hreq, ?_⟩
    cases hg : dictGetVer cs req.name with
    | none => exact Or.inl rfl
    | some ver =>
      refine Or.inr ⟨ver, rfl, ?_⟩
      rw [hg] at hp
      cases hs : specSetContains req.specifier ver
      · rfl
      · exact absurd hs hp
  · rintro ⟨req, hreq, hcase⟩
    refine ⟨req, hreq, ?_⟩
    rcases hcase with hnone | ⟨ver, hver, hout⟩
    · rw [hnone]
      simp
    · rw [hver]
      simp [hout]

/-- C3 — confirmed.  Sufficient-phase matching: an environment is rejected
exactly when the spec's python requirement is unsatisfied or some declared
dependency is absent or installed at a version outside its specifier;
additional installed packages are never a reason for rejection; and the
first environment in iteration order passing every check is the one
returned (mutated in place). -/
theorem C3_sufficient_matching (c : TempCatalogue) (spec : EnvironmentSpec) (now : Nat)
    (hwf : ∀ kv ∈ c.environments, wellFormedModules kv.2.installed_modules = true) :
    (c.environments.find? (fun kv => acceptEnv spec kv.2) = none →
      c.find_sufficient_env spec now = Except.ok (c, {}, none)) ∧
    (∀ kv, c.environments.find? (fun q => acceptEnv spec q.2) = some kv →
      ∃ c' t, c.find_sufficient_env spec now
          = Except.ok (c', t, some (updEnvSuff spec now kv.2))) ∧
    (∀ env cs, buildCacheSpec env.installed_modules = some cs →
      (acceptEnv spec env = false ↔
        pythonSkip spec env = true ∨
        ∃ req ∈ spec.details.dependencies_spec, dictGetVer cs req.name = none ∨
          ∃ ver, dictGetVer cs req.name = some ver ∧
            specSetContains req.specifier ver = false)) ∧
    (∀ env m n v, parseModule m = some (n, v) →
      wellFormedModules env.installed_modules = true →
      (∀ req ∈ spec.details.dependencies_spec, req.name ≠ n) →
      acceptEnv spec { env with installed_modules := env.installed_modules ++ [m] }
        = acceptEnv spec env) := by
  have hwf' : ∀ kv ∈ c.environments, pythonSkip spec kv.2 = true ∨
      wellFormedModules kv.2.installed_modules = true :=
    fun kv hkv => Or.inr (hwf kv hkv)
  refine ⟨?_, ?_, ?_, ?_⟩
  · intro hfind
    unfold TempCatalogue.find_sufficient_env
    rw [suffScan_wf_none spec now c.environments hwf' hfind]
  · intro kv hfind
    obtain ⟨l₁, l₂, hdec, hscan⟩ := suffScan_wf_some spec now c.environments kv hwf' hfind
    refine ⟨{ c with environments := l₁ ++ (kv.1, updEnvSuff spec now kv.2) :: l₂ },
      { saves := 1 }, ?_⟩
    unfold TempCatalogue.find_sufficient_env
    rw [hscan]
  · intro env cs hbc
    by_cases hps : pythonSkip spec env = true
    · simp [acceptEnv_of_skip hps, hps]
    · have hpf : pythonSkip spec env = false := by
        cases hx : pythonSkip spec env
        · rfl
        · exact absurd hx hps
      rw [acceptEnv_of_cs hpf hbc, depsSatisfied_eq_false_iff]
      simp [hpf]
  · intro env m n v hm hwfm hnames
    obtain ⟨cs, hbc⟩ := Option.isSome_iff_exists.mp hwfm
    have hbc' :
        buildCacheSpec (env.installed_modules ++ [m]) = some (dictInsert cs n v) :=
      buildCacheSpec_append hbc hm
    have hskipeq : pythonSkip spec { env with
        installed_modules := env.installed_modules ++ [m] } = pythonSkip spec env := rfl
    by_cases hps : pythonSkip spec env = true
    · rw [acceptEnv_of_skip hps, acceptEnv_of_skip (hskipeq.trans hps)]
    · have hpf : pythonSkip spec env = false := by
        cases hx : pythonSkip spec env
        · rfl
        · exact absurd hx hps
      rw [acceptEnv_of_cs hpf hbc, acceptEnv_of_cs (hskipeq.trans hpf) hbc',
        depsSatisfied_dictInsert_ne hnames]

/-- Witness for C3 on a one-environment catalogue holding
`requests==2.32.3` and the spec `requests>=2.30`. -/
theorem C3_witness :
    ((oneEnvCat (mkEnv 0 1 1 ["h0"] ["requests==2.32.3"])).environments.find?
        (fun kv => acceptEnv specRequests kv.2) = none →
      (oneEnvCat (mkEnv 0 1 1 ["h0"] ["requests==2.32.3"])).find_sufficient_env specRequests 9
        = Except.ok (oneEnvCat (mkEnv 0 1 1 ["h0"] ["requests==2.32.3"]), {}, none)) ∧
    (∀ kv, (oneEnvCat (mkEnv 0 1 1 ["h0"] ["requests==2.32.3"])).environments.find?
        (fun q => acceptEnv specRequests q.2) = some kv →
      ∃ c' t, (oneEnvCat (mkEnv 0 1 1 ["h0"] ["requests==2.32.3"])).find_sufficient_env
          specRequests 9 = Except.ok (c', t, some (updEnvSuff specRequests 9 kv.2))) ∧
    (∀ env cs, buildCacheSpec env.installed_modules = some cs →
      (acceptEnv specRequests env = false ↔
        pythonSkip specRequests env = true ∨
        ∃ req ∈ specRequests.details.dependencies_spec, dictGetVer cs req.name = none ∨
          ∃ ver, dictGetVer cs req.name = some ver ∧
            specSetContains req.specifier ver = false)) ∧
    (∀ env m n v, parseModule m = some (n, v) →
      wellFormedModules env.installed_modules = true →
      (∀ req ∈ specRequests.details.dependencies_spec, req.name ≠ n) →
      acceptEnv specRequests { env with
          installed_modules := env.installed_modules ++ [m] }
        = acceptEnv specRequests env) :=
  C3_sufficient_matching (oneEnvCat (mkEnv 0 1 1 ["h0"] ["requests==2.32.3"]))
    specRequests 9 (by decide)

theorem select_python_eq_find? (spec : EnvironmentSpec) :
    ∀ installs : List PyInstall,
    select_python spec installs = installs.find? (usableFor spec) := by
  intro installs
  induction installs with
  | nil => rfl
  | cons i rest ih =>
    cases hp : i.pip_version with
    | none =>
      have hu : usableFor spec i = false := by
        simp [usableFor, hp]
      simp only [select_python, hp, List.find?_cons, hu]
      exact ih
    | some pv =>
      by_cases hlt : pv.verLt minimumPip = true
      · have hu : usableFor spec i = false := by
          simp [usableFor, hp, hlt]
        simp only [select_python, hp, hlt, if_pos, List.find?_cons, hu]
        exact ih
      · have hltf : pv.verLt minimumPip = false := by
          cases hx : pv.verLt minimumPip
          · rfl
          · exact absurd hx hlt
        cases hrp : spec.details.requires_python with
        | none =>
          have hu : usableFor spec i = true := by
            simp [usableFor, hp, hltf, hrp]
          simp only [select_python, hp, hltf, Bool.false_eq_true, if_false, hrp,
            List.find?_cons, hu]
        | some ss =>
          by_cases hss : specSetContains ss i.version = true
          · have hu : usableFor spec i = true := by
              simp [usableFor, hp, hltf, hrp, hss]
            simp only [select_python, hp, hltf, Bool.false_eq_true, if_false, hrp, hss,
              if_pos, List.find?_cons, hu]
          · have hssf : specSetContains ss i.version = false := by
              cases hx : specSetContains ss i.version
              · rfl
              · exact absurd hx hss
            have hu : usableFor spec i = false := by
              simp [usableFor, hp, hltf, hrp, hssf]
            simp only [select_python, hp, hltf, Bool.false_eq_true, if_false, hrp, hssf,
              List.find?_cons, hu]
            exact ih

/-- C9 — confirmed.  Interpreter selection: `create_env` chooses the first
enumerated interpreter that has a usable installer (pip present and at
least `MINIMUM_PIP`) and whose version satisfies the spec's python
requirement (any usable one when the requirement is unset); candidates
without a usable installer are skipped.  In particular, for the enumerator
`[(3.10, pip ok), (3.12, pip ok)]` and requirement `>=3.11` the 3.12
interpreter is selected, and an interpreter without pip is skipped in
favour of a later one with pip. -/
theorem C9_interpreter_selection :
    (∀ (spec : EnvironmentSpec) (installs : List PyInstall),
      select_python spec installs = installs.find? (usableFor spec)) ∧
    select_python spec311 [py310, py312] = some py312 ∧
    select_python (mkSpec "h1") [py313NoPip, py310] = some py310 :=
  ⟨select_python_eq_find?, by decide, by decide⟩

/-- PEP 440 behaviour of the modelled version algebra (spec §4.2) at
concrete points: parses of dev/pre/post/epoch/local forms, rejection of
malformed strings, the stated ordering
`1.0.dev1 < 1.0a1 < 1.0 < 1.0.post1`, local labels outside the ordering,
and the pre-release matching rule. -/
theorem pep440_examples :
    parseVersion "1.0.dev1" = some { release := [1, 0], dev := some 1 } ∧
    parseVersion "1.0a1" = some { release := [1, 0], pre := some (0, 1) } ∧
    parseVersion "1.0rc1" = some { release := [1, 0], pre := some (2, 1) } ∧
    parseVersion "1.0.post1" = some { release := [1, 0], post := some 1 } ∧
    parseVersion "2.0.1+cu118"
      = some { release := [2, 0, 1], localSeg := [LocalSeg.str ['c', 'u', '1', '1', '8']] } ∧
    parseVersion "1!2.0" = some { release := [2, 0], epoch := 1 } ∧
    parseVersion " V1.0Alpha3 " = some { release := [1, 0], pre := some (0, 3) } ∧
    parseVersion "1.0-1" = some { release := [1, 0], post := some 1 } ∧
    parseVersion "" = none ∧
    parseVersion "1.0.0." = none ∧
    parseVersion "name @ https://host/pkg.whl" = none ∧
    ({ release := [1, 0], dev := some 1 } : PyVersion).verLt
      { release := [1, 0], pre := some (0, 1) } = true ∧
    ({ release := [1, 0], pre := some (0, 1) } : PyVersion).verLt
      { release := [1, 0] } = true ∧
    ({ release := [1, 0] } : PyVersion).verLt
      { release := [1, 0], post := some 1 } = true ∧
    ({ release := [1, 0], localSeg := [LocalSeg.str ['c', 'u']] } : PyVersion).verEq
      { release := [1, 0] } = true ∧
    ({ release := [1, 0] } : PyVersion).verEq { release := [1, 0, 0] } = true ∧
    specSetContains [⟨SpecOp.opGe, { release := [0, 5] }⟩]
      { release := [1, 0], pre := some (2, 1) } = false ∧
    specSetContains [⟨SpecOp.opGe, { release := [1, 0], pre := some (0, 1) }⟩]
      { release := [1, 0], pre := some (2, 1) } = true := by
  decide

/-- C10 — confirmed.  Sufficient-phase totality precondition: when every
candidate environment the phase examines (one not skipped by the python
check) has `installed_modules` entries that split on `==` into a name and a
parseable PEP 440 version, `find_sufficient_env` terminates normally;
conversely a full no-match traversal certifies that precondition, and an
examined environment containing a violating entry (such as the direct-URL
freeze line `name @ https://host/pkg.whl`) makes the phase raise instead of
skipping the environment or returning none.  Routine freeze lines with
pre/post/dev/epoch/local version components are well-formed. -/
theorem C10_sufficient_totality (c : TempCatalogue) (spec : EnvironmentSpec) (now : Nat) :
    ((∀ kv ∈ c.environments, pythonSkip spec kv.2 = true ∨
        wellFormedModules kv.2.installed_modules = true) →
      ∃ res, c.find_sufficient_env spec now = Except.ok res) ∧
    (c.find_sufficient_env spec now = Except.ok (c, {}, none) →
      ∀ kv ∈ c.environments, pythonSkip spec kv.2 = true ∨
        wellFormedModules kv.2.installed_modules = true) ∧
    (∀ k env rest, c.environments = (k, env) :: rest →
      pythonSkip spec env = false →
      wellFormedModules env.installed_modules = false →
      c.find_sufficient_env spec now = Except.error EnvError.moduleParse) ∧
    wellFormedModules ["name @ https://host/pkg.whl"] = false ∧
    wellFormedModules ["requests==2.32.3"] = true ∧
    wellFormedModules ["pkg==1.0.post1", "torch==2.0.1+cu118", "pkg2==1.0rc1",
      "pkg3==1.1.0.dev2", "pkg4==1!2.0"] = true := by
  refine ⟨?_, ?_, ?_, by decide, by decide, by decide⟩
  · intro hwf
    cases hfind : c.environments.find? (fun kv => acceptEnv spec kv.2) with
    | none =>
      refine ⟨(c, {}, none), ?_⟩
      unfold TempCatalogue.find_sufficient_env
      rw [suffScan_wf_none spec now c.environments hwf hfind]
    | some kv =>
      obtain ⟨l₁, l₂, hdec, hscan⟩ := suffScan_wf_some spec now c.environments kv hwf hfind
      refine ⟨({ c with environments := l₁ ++ (kv.1, updEnvSuff spec now kv.2) :: l₂ },
        { saves := 1 }, some (updEnvSuff spec now kv.2)), ?_⟩
      unfold TempCatalogue.find_sufficient_env
      rw [hscan]
  · intro hok
    apply suffScan_ok_none_wf c.environments
    unfold TempCatalogue.find_sufficient_env at hok
    cases hs : suffScan spec now c.environments with
    | error e =>
      rw [hs] at hok
      exact absurd hok (by simp)
    | ok o =>
      cases o with
      | none => rfl
      | some p =>
        obtain ⟨l, e⟩ := p
        rw [hs] at hok
        simp only [Except.ok.injEq, Prod.mk.injEq] at hok
        exact absurd hok.2.2 (by simp)
  · intro k env rest hc hpf hwfm
    have hbc : buildCacheSpec env.installed_modules = none := by
      unfold wellFormedModules at hwfm
      cases hx : buildCacheSpec env.installed_modules
      · rfl
      · rw [hx] at hwfm
        exact absurd hwfm (by simp)
    unfold TempCatalogue.find_sufficient_env
    rw [hc]
    simp [suffScan, hpf, hbc]

/-- Witness for C10: a singleton catalogue whose environment carries the
direct-URL freeze line makes the sufficient phase raise. -/
theorem C10_witness :
    (oneEnvCat (mkEnv 0 5 5 ["h0"] ["name @ https://host/pkg.whl"])).find_sufficient_env
        (mkSpec "s") 9 = Except.error EnvError.moduleParse :=
  (C10_sufficient_totality (oneEnvCat (mkEnv 0 5 5 ["h0"] ["name @ https://host/pkg.whl"]))
      (mkSpec "s") 9).2.2.1
    0 (mkEnv 0 5 5 ["h0"] ["name @ https://host/pkg.whl"]) [] (by decide) (by decide) (by decide)

theorem nodup_append_single {l : List String} {h : String}
    (hl : l.Nodup) (hm : ¬ h ∈ l) : (l ++ [h]).Nodup := by
  rw [List.nodup_append]
  refine ⟨hl, List.nodup_singleton h, ?_⟩
  intro a ha hha
  rw [List.mem_singleton] at hha
  exact hm (hha ▸ ha)

theorem evict_go_subset (maxcount : Nat) :
    ∀ (fuel : Nat) (c : TempCatalogue) (kv : Nat × TemporaryEnv),
    kv ∈ (TempCatalogue.evict_go fuel c maxcount).1.environments → kv ∈ c.environments := by
  intro fuel
  induction fuel with
  | zero =>
    intro c kv h
    exact h
  | succ f ih =>
    intro c kv h
    by_cases hgt : maxcount < c.environments.length
    · cases hs : c.evict_step with
      | error e =>
        have hval : TempCatalogue.evict_go (f + 1) c maxcount = (c, {}, false) := by
          conv_lhs => rw [TempCatalogue.evict_go]
          rw [if_pos hgt, hs]
        rw [hval] at h
        exact h
      | ok ct =>
        obtain ⟨c', t⟩ := ct
        have hval : TempCatalogue.evict_go (f + 1) c maxcount =
            ((TempCatalogue.evict_go f c' maxcount).1,
             t.comb (TempCatalogue.evict_go f c' maxcount).2.1,
             (TempCatalogue.evict_go f c' maxcount).2.2) := by
          conv_lhs => rw [TempCatalogue.evict_go]
          rw [if_pos hgt, hs]
        rw [hval] at h
        dsimp only at h
        exact (evict_step_shape hs).2.2.2 kv (ih c' kv h)
    · have hval : TempCatalogue.evict_go (f + 1) c maxcount = (c, {}, true) := by
        conv_lhs => rw [TempCatalogue.evict_go]
        rw [if_neg hgt]
      rw [hval] at h
      exact h

theorem evict_loop_subset {c : TempCatalogue} {maxcount : Nat} {kv : Nat × TemporaryEnv}
    (h : kv ∈ (c.evict_loop maxcount).1.environments) : kv ∈ c.environments :=
  evict_go_subset maxcount _ c kv h

theorem create_env_nodup {c : TempCatalogue} {spec : EnvironmentSpec} {maxcount : Nat}
    {w : BuildWorld} {now : Nat} (hnd : nodupHashes c) :
    nodupHashes (c.create_env spec maxcount w now).cat := by
  cases hres : (c.create_env spec maxcount w now).result with
  | error e =>
    rcases create_env_error_shape hres with ⟨_, heq⟩ | ⟨_, heq⟩ | ⟨_, heq⟩
    · rw [heq]
      exact hnd
    · rw [heq]
      intro kv hkv
      exact hnd kv (evict_loop_subset hkv)
    · rw [heq]
      intro kv hkv
      exact hnd kv (evict_loop_subset hkv)
  | ok env =>
    obtain ⟨hev, hname, hsh, hcr, hlu, heq⟩ := create_env_ok_shape hres
    rw [heq]
    intro kv hkv
    rcases mem_dictInsert hkv with hm | hm
    · exact hnd kv (evict_loop_subset hm)
    · rw [hm]
      simp [hsh]

theorem find_env_nodup {c : TempCatalogue} {spec : EnvironmentSpec} {now : Nat}
    {c₁ : TempCatalogue} {t₁ : Trace} {r : Option TemporaryEnv}
    (h : c.find_env spec now = Except.ok (c₁, t₁, r)) (hnd : nodupHashes c) :
    nodupHashes c₁ ∧ (r = none → c₁ = c) := by
  unfold TempCatalogue.find_env TempCatalogue.find_env_hash
    TempCatalogue.find_sufficient_env at h
  cases hhs : hashScan spec.spec_hash now c.environments with
  | some p =>
    obtain ⟨l, e⟩ := p
    rw [hhs] at h
    dsimp only at h
    simp only [Except.ok.injEq, Prod.mk.injEq] at h
    obtain ⟨h1, h2, h3⟩ := h
    subst h1
    constructor
    · intro kv hkv
      obtain ⟨l₁, kvh, l₂, g1, g2, g3, g4⟩ := hashScan_some_shape hhs
      simp only at hkv
      rw [g4] at hkv
      rcases List.mem_append.mp hkv with hm | hm
      · exact hnd kv (by rw [g1]; exact List.mem_append.mpr (Or.inl hm))
      · rcases List.mem_cons.mp hm with he | hm2
        · rw [he]
          have hkvm : kvh ∈ c.environments := by
            rw [g1]
            exact List.mem_append.mpr (Or.inr (List.mem_cons_self _ _))
          simpa [updEnvHash] using hnd kvh hkvm
        · exact hnd kv
            (by rw [g1]; exact List.mem_append.mpr (Or.inr (List.mem_cons_of_mem _ hm2)))
    · intro hr
      rw [← h3] at hr
      exact absurd hr (by simp)
  | none =>
    rw [hhs] at h
    dsimp only at h
    cases hss : suffScan spec now c.environments with
    | error e =>
      rw [hss] at h
      exact absurd h (by simp)
    | ok o =>
      rw [hss] at h
      cases o with
      | none =>
        simp only [Except.ok.injEq, Prod.mk.injEq] at h
        obtain ⟨h1, h2, h3⟩ := h
        subst h1
        exact ⟨hnd, fun _ => rfl⟩
      | some p =>
        obtain ⟨l, e⟩ := p
        dsimp only at h
        simp only [Except.ok.injEq, Prod.mk.injEq] at h
        obtain ⟨h1, h2, h3⟩ := h
        subst h1
        constructor
        · intro kv hkv
          obtain ⟨l₁, kvh, l₂, g1, g2, g3⟩ := suffScan_some_shape hss
          simp only at hkv
          rw [g3] at hkv
          rcases List.mem_append.mp hkv with hm | hm
          · exact hnd kv (by rw [g1]; exact List.mem_append.mpr (Or.inl hm))
          · rcases List.mem_cons.mp hm with he | hm2
            · rw [he]
              have hkvm : kvh ∈ c.environments := by
                rw [g1]
                exact List.mem_append.mpr (Or.inr (List.mem_cons_self _ _))
              have hnm : ¬ spec.spec_hash ∈ kvh.2.spec_hashes := by
                have := hashScan_none_iff.mp hhs kvh hkvm
                simpa using this
              have hap : ((kvh.2.spec_hashes) ++ [spec.spec_hash]).Nodup :=
                nodup_append_single (hnd kvh hkvm) hnm
              simpa [updEnvSuff] using hap
            · exact hnd kv
                (by rw [g1]; exact List.mem_append.mpr (Or.inr (List.mem_cons_of_mem _ hm2)))
        · intro hr
          rw [← h3] at hr
          exact absurd hr (by simp)

/-- C7 — corrected.  Set semantics of fingerprints: `find_sufficient_env`
appends the spec hash **unconditionally** (the source has no duplicate
check), so a direct sufficient lookup with an already-recorded fingerprint
duplicates it; the no-duplicate invariant is nonetheless preserved by the
public `find_or_create_env` entry point, because the exact phase runs first
and returns early whenever the fingerprint is already present anywhere. -/
theorem C7_fingerprints_nodup {c : TempCatalogue} {spec : EnvironmentSpec}
    {maxcount : Nat} {w : BuildWorld} {now : Nat}
    (hnd : nodupHashes c) :
    nodupHashes (c.find_or_create_env spec maxcount w now).cat := by
  unfold TempCatalogue.find_or_create_env
  cases hfe : c.find_env spec now with
  | error e => exact hnd
  | ok trip =>
    obtain ⟨c₁, t₁, r⟩ := trip
    have hinv := find_env_nodup hfe hnd
    cases r with
    | some env => exact hinv.1
    | none =>
      have hc₁ : c₁ = c := hinv.2 rfl
      subst hc₁
      exact create_env_nodup hnd

/-- C7 counterexample: calling `find_sufficient_env` with a spec whose
fingerprint the environment already records appends it again — the
fingerprint list becomes `["h", "h"]`, violating the claimed set
semantics. -/
theorem C7_counterexample :
    (oneEnvCat (mkEnv 0 5 5 ["h"] [])).find_sufficient_env (mkSpec "h") 9 =
      Except.ok
        ({ path := "a/b",
           environments := [(0, updEnvSuff (mkSpec "h") 9 (mkEnv 0 5 5 ["h"] []))],
           env_counter := 1 },
          { saves := 1 }, some (updEnvSuff (mkSpec "h") 9 (mkEnv 0 5 5 ["h"] []))) ∧
    (updEnvSuff (mkSpec "h") 9 (mkEnv 0 5 5 ["h"] [])).spec_hashes = ["h", "h"] ∧
    ¬ (updEnvSuff (mkSpec "h") 9 (mkEnv 0 5 5 ["h"] [])).spec_hashes.Nodup :=
  ⟨by decide, by decide, by decide⟩

/-- Witness for C7 on a concrete catalogue and spec. -/
theorem C7_witness :
    nodupHashes (catStale.find_or_create_env (mkSpec "hx") 5 goodWorld 7).cat :=
  C7_fingerprints_nodup
    (show ∀ kv ∈ catStale.environments, kv.2.spec_hashes.Nodup by decide)

/-- Witness for C5 at a concrete catalogue path. -/
theorem C5_witness :
    (emptyCatalogue "b/catalogue.json").save_fsops =
      [FsOp.makedirs (emptyCatalogue "b/catalogue.json").catalogue_folder,
        FsOp.openTruncate (emptyCatalogue "b/catalogue.json").path,
        FsOp.writeContent (emptyCatalogue "b/catalogue.json").path] ∧
    (∀ op ∈ (emptyCatalogue "b/catalogue.json").save_fsops, op.isRename = false) ∧
    FileView.truncated ∈ fileStates (emptyCatalogue "b/catalogue.json").path
      (emptyCatalogue "b/catalogue.json").save_fsops FileView.oldDoc :=
  C5_save_truncates_in_place (emptyCatalogue "b/catalogue.json")
